import Mathlib

/-!
# Verification of the FreeDV VHF framer/deframer (`freedv_vhf_framing.c`)

This file is a shallow embedding of the Type A framing code of
`src/freedv_vhf_framing.c` together with proofs about it.

Modelling conventions:
* C byte arrays become `List Nat`; every array read `a[i]` becomes
  `a.getD i 0` (an out-of-bounds read is modelled as reading `0`),
  every array write `a[i] = v` becomes `a.set i v` (an out-of-bounds
  write is modelled as a no-op; the proofs track bounds explicitly).
* Machine integers become `Nat`; the source never subtracts below zero
  and never overflows 31 bits on the paths modelled here.
* `malloc` for the deframer's 96-entry bit buffer leaves the buffer's
  content unspecified; the model takes the freshly created buffer to be
  all zeroes.
* The stateful C functions become pure functions from the old state (and
  the previous contents of the caller-supplied output arrays) to the new
  state and new output contents.
-/

namespace FreeDVVHF

/-- Value of the `FREEDV_VHF_FRAME_A` constant from `freedv_vhf_framing.h`
(the header is not part of `src/`; only equality with this constant is ever
tested, so its concrete value is immaterial). -/
def FREEDV_VHF_FRAME_A : Nat := 1

/-- `ST_NOSYNC`: not synchronized. -/
def ST_NOSYNC : Nat := 0

/-- `ST_SYNC`: synchronized. -/
def ST_SYNC : Nat := 1

/-- The UW of the VHF type A frame (`A_uw`). -/
def A_uw : List Nat := [0,1,1,0,0,1,1,1,1,0,1,0,1,1,0,1]

/-- Blank VHF type A frame (`A_blank`). -/
def A_blank : List Nat :=
  [1,0,1,0,0,1,1,1,
   1,0,1,0,0,1,1,1,
   0,0,0,0,0,0,0,0,
   0,0,0,0,0,0,0,0,
   0,0,0,0,0,0,0,0,
   0,1,1,0,0,1,1,1,
   1,0,1,0,1,1,0,1,
   0,0,0,0,0,0,0,0,
   0,0,0,0,0,0,0,0,
   0,0,0,0,0,0,0,0,
   0,0,0,0,0,0,1,0,
   0,1,1,1,0,0,1,0]

/-- `UNPACK_BIT_MSBFIRST(bytes,bitidx)`:
`((bytes)[(bitidx)>>3]>>(7-((bitidx)&0x7)))&0x1`. -/
def UNPACK_BIT_MSBFIRST (bytes : List Nat) (bitidx : Nat) : Nat :=
  (bytes.getD (bitidx >>> 3) 0 >>> (7 - (bitidx &&& 7))) &&& 1

/-- One C loop of the shape
`for(i=start; i<start+n; i++){ bits_out[i] = f(ibit); ibit++; }`. -/
def fillRange (out : List Nat) (start : Nat) (n : Nat) (f : Nat → Nat)
    (ibit : Nat) : List Nat :=
  match n with
  | 0 => out
  | Nat.succ m => fillRange (out.set start (f ibit)) (start + 1) m f (ibit + 1)

/-- `fvhff_frame_bits`: place codec and other bits into a frame.
The C function fills the caller's `bits_out[0..95]` entirely from
`A_blank` before writing anything else, so for a supported frame type the
result does not depend on the buffer's previous contents and is returned
directly; for an unsupported frame type the C function writes nothing,
modelled as `none`.  `proto_in = none` / `vc_in = none` model NULL
pointers. -/
def fvhff_frame_bits (frame_type : Nat) (codec2_in : List Nat)
    (proto_in : Option (List Nat)) (vc_in : Option (List Nat)) :
    Option (List Nat) :=
  if frame_type = FREEDV_VHF_FRAME_A then
    let bits_out := A_blank
    /- Fill in varicode bits, if present -/
    let bits_out :=
      match vc_in with
      | some vc => (bits_out.set 90 (vc.getD 0 0)).set 91 (vc.getD 1 0)
      | none => bits_out
    /- Fill in protocol bits, if present -/
    let bits_out :=
      match proto_in with
      | some proto =>
          let bits_out := fillRange bits_out 4 12 (UNPACK_BIT_MSBFIRST proto) 0
          fillRange bits_out 84 8 (UNPACK_BIT_MSBFIRST proto) 12
      | none => bits_out
    /- Fill in codec2 bits, present or not -/
    let bits_out := fillRange bits_out 16 24 (UNPACK_BIT_MSBFIRST codec2_in) 0
    some (fillRange bits_out 56 28 (UNPACK_BIT_MSBFIRST codec2_in) 24)
  else none

/-- The `struct freedv_vhf_deframer` state. -/
structure Deframer where
  bits : List Nat
  ftype : Nat
  state : Nat
  bitptr : Nat
  last_uw : Nat
  miss_cnt : Nat
  frame_size : Nat
  deriving DecidableEq, Repr

/-- `fvhff_create_deframer`: init a freedv-vhf framer/deframer.
`none` models both the unsupported-frame-type failure and is never used to
model allocation failure (allocation always succeeds in the model); the
`malloc`-ed 96-byte bit buffer has unspecified contents in C and is taken
to be all zeroes here. -/
def fvhff_create_deframer (frame_type : Nat) : Option Deframer :=
  if frame_type = FREEDV_VHF_FRAME_A then
    some { bits := List.replicate 96 0, ftype := frame_type,
           state := ST_NOSYNC, bitptr := 0, last_uw := 0, miss_cnt := 0,
           frame_size := 96 }
  else none

/-- `fvhff_synchronized`. -/
def fvhff_synchronized (d : Deframer) : Bool :=
  d.state = ST_SYNC

/-- The UW-comparison loop of `fvhff_match_uw`:
`for(iuw=0; iuw<uw_len; iuw++){ if(bits[ibit] != uw[iuw]) diff++;
ibit++; if(ibit >= frame_size) ibit = 0; }`. -/
def matchLoop (bits uw : List Nat) (frame_size : Nat) :
    Nat → Nat → Nat → Nat → Nat
  | 0, _iuw, _ibit, diff => diff
  | Nat.succ n, iuw, ibit, diff =>
      let diff := if bits.getD ibit 0 ≠ uw.getD iuw 0 then diff + 1 else diff
      let ibit := ibit + 1
      let ibit := if ibit ≥ frame_size then 0 else ibit
      matchLoop bits uw frame_size n (iuw + 1) ibit diff

/-- `fvhff_match_uw`: see if the UW is where it should be, to within a
tolerance, in a bit buffer.  For a non-Type-A frame the C function
returns 0 (false). -/
def fvhff_match_uw (d : Deframer) (tol : Nat) : Bool :=
  if d.ftype = FREEDV_VHF_FRAME_A then
    let uw := A_uw
    let uw_len := 16
    let uw_offset := 40
    let ibit := d.bitptr + uw_offset
    let ibit := if ibit ≥ d.frame_size then ibit - d.frame_size else ibit
    decide (matchLoop d.bits uw d.frame_size uw_len 0 ibit 0 ≤ tol)
  else false

/-- The start-index computation `iframe = bitptr+off;
if(iframe >= frame_size) iframe-=frame_size;` used by
`fvhff_extract_frame`. -/
def wrapStart (bitptr off frame_size : Nat) : Nat :=
  let iframe := bitptr + off
  if iframe ≥ frame_size then iframe - frame_size else iframe

/-- One C extraction loop of the shape
`for(;ibit<ibit0+n;ibit++){ out[ibit>>3] |= (bits[iframe]&0x1)<<(7-(ibit&0x7));
iframe++; if(iframe >= frame_size) iframe=0; }`. -/
def packRange (bits : List Nat) (frame_size : Nat) :
    Nat → Nat → Nat → List Nat → List Nat
  | 0, _ibit, _iframe, out => out
  | Nat.succ n, ibit, iframe, out =>
      let out := out.set (ibit >>> 3)
        (out.getD (ibit >>> 3) 0 |||
          ((bits.getD iframe 0 &&& 1) <<< (7 - (ibit &&& 7))))
      let iframe := iframe + 1
      let iframe := if iframe ≥ frame_size then 0 else iframe
      packRange bits frame_size n (ibit + 1) iframe out

/-- `fvhff_extract_frame`.  Takes the previous contents of the
caller-supplied output arrays and returns their new contents
(`none` models a NULL `proto_out`/`vc_out`).  `memset(codec2_out,0,7)`
and `memset(proto_out,0,3)` clear exactly the first 7 resp. 3 bytes.
Note the second varicode read `vc_out[1] = bits[iframe]` happens after a
plain `iframe++` with no wrap check, exactly as in the source; when that
index is 96 the C code reads out of bounds, which the model renders as
`getD _ 0`. -/
def fvhff_extract_frame (d : Deframer) (codec2_out : List Nat)
    (proto_out : Option (List Nat)) (vc_out : Option (List Nat)) :
    List Nat × Option (List Nat) × Option (List Nat) :=
  if d.ftype = FREEDV_VHF_FRAME_A then
    /- Extract codec2 bits -/
    let codec2_out := List.replicate 7 0 ++ codec2_out.drop 7
    let codec2_out :=
      packRange d.bits d.frame_size 24 0 (wrapStart d.bitptr 16 d.frame_size)
        codec2_out
    let codec2_out :=
      packRange d.bits d.frame_size 28 24 (wrapStart d.bitptr 56 d.frame_size)
        codec2_out
    /- Extract varicode bits, if wanted -/
    let vc_out :=
      match vc_out with
      | some vc =>
          let iframe := wrapStart d.bitptr 90 d.frame_size
          let vc := vc.set 0 (d.bits.getD iframe 0)
          some (vc.set 1 (d.bits.getD (iframe + 1) 0))
      | none => none
    /- Extract protocol bits, if proto is passed through -/
    let proto_out :=
      match proto_out with
      | some proto =>
          let proto := List.replicate 3 0 ++ proto.drop 3
          let proto :=
            packRange d.bits d.frame_size 12 0
              (wrapStart d.bitptr 4 d.frame_size) proto
          some (packRange d.bits d.frame_size 8 12
              (wrapStart d.bitptr 84 d.frame_size) proto)
      | none => none
    (codec2_out, proto_out, vc_out)
  else (codec2_out, proto_out, vc_out)

/-- The UW bit-error tolerance for the first frame (`uw_first_tol`). -/
def uw_first_tol : Nat := 2

/-- The UW bit error tolerance for frames after sync (`uw_sync_tol`). -/
def uw_sync_tol : Nat := 1

/-- How many UWs may be missed before going into the de-synced state
(`miss_tol`). -/
def miss_tol : Nat := 2

/-- One iteration of the per-bit loop in `fvhff_deframe_bits`.  The last
two components of the result are the `extracted_frame` flag (the C `int`,
set to 1 when a frame is extracted) and an extraction-event counter: the
counter is not in the C source; it increments exactly on the iterations
in which the source executes `fvhff_extract_frame`, and exists only so
that the number of extraction events in a call can be stated. -/
def deframeStep (d : Deframer) (codec2_out : List Nat)
    (proto_out vc_out : Option (List Nat)) (extracted_frame cnt : Nat)
    (b : Nat) :
    Deframer × List Nat × Option (List Nat) × Option (List Nat) × Nat × Nat :=
  /- Put a bit in the buffer -/
  let bits := d.bits.set d.bitptr b
  let bitptr := d.bitptr + 1
  let bitptr := if bitptr ≥ d.frame_size then 0 else bitptr
  let d := { d with bits := bits, bitptr := bitptr }
  if d.state = ST_SYNC then
    /- Already synchronized, just wait till UW is back where it should be -/
    let last_uw := d.last_uw + 1
    if last_uw = d.frame_size then
      let d := { d with last_uw := 0 }
      let miss_cnt :=
        if ¬ fvhff_match_uw d uw_sync_tol then d.miss_cnt + 1 else 0
      /- If we go over the miss tolerance, go into no-sync -/
      let state := if miss_cnt > miss_tol then ST_NOSYNC else d.state
      let d := { d with miss_cnt := miss_cnt, state := state }
      /- Extract the bits -/
      let r := fvhff_extract_frame d codec2_out proto_out vc_out
      (d, r.1, r.2.1, r.2.2, 1, cnt + 1)
    else ({ d with last_uw := last_uw }, codec2_out, proto_out, vc_out,
          extracted_frame, cnt)
  else
    /- It's a sync! -/
    if fvhff_match_uw d uw_first_tol then
      let d := { d with state := ST_SYNC, last_uw := 0, miss_cnt := 0 }
      let r := fvhff_extract_frame d codec2_out proto_out vc_out
      (d, r.1, r.2.1, r.2.2, 1, cnt + 1)
    else (d, codec2_out, proto_out, vc_out, extracted_frame, cnt)

/-- The `for(i=0; i<frame_size; i++)` loop of `fvhff_deframe_bits`,
processing the listed input bits one at a time. -/
def deframeLoop (d : Deframer) (codec2_out : List Nat)
    (proto_out vc_out : Option (List Nat)) (extracted_frame cnt : Nat) :
    List Nat →
    Deframer × List Nat × Option (List Nat) × Option (List Nat) × Nat × Nat
  | [] => (d, codec2_out, proto_out, vc_out, extracted_frame, cnt)
  | b :: rest =>
      let r := deframeStep d codec2_out proto_out vc_out extracted_frame cnt b
      deframeLoop r.1 r.2.1 r.2.2.1 r.2.2.2.1 r.2.2.2.2.1 r.2.2.2.2.2 rest

/-- `fvhff_deframe_bits`: try to find the UW and extract codec/proto/vc
bits in `def->frame_size` bits.  The C loop always consumes exactly
`frame_size` entries of `bits_in`.  Returns the new deframer state, the
new contents of the three output arrays, and the `extracted_frame` flag.
For a non-Type-A deframer the C function returns 0 before the loop. -/
def fvhff_deframe_bits (d : Deframer) (codec2_out : List Nat)
    (proto_out vc_out : Option (List Nat)) (bits_in : List Nat) :
    Deframer × List Nat × Option (List Nat) × Option (List Nat) × Nat :=
  if d.ftype = FREEDV_VHF_FRAME_A then
    let r := deframeLoop d codec2_out proto_out vc_out 0 0
        ((List.range d.frame_size).map (fun i => bits_in.getD i 0))
    (r.1, r.2.1, r.2.2.1, r.2.2.2.1, r.2.2.2.2.1)
  else (d, codec2_out, proto_out, vc_out, 0)

/-- Number of loop iterations of a `fvhff_deframe_bits` call in which the
source executes `fvhff_extract_frame` (the extraction-event count). -/
def fvhff_extraction_count (d : Deframer) (codec2_out : List Nat)
    (proto_out vc_out : Option (List Nat)) (bits_in : List Nat) : Nat :=
  if d.ftype = FREEDV_VHF_FRAME_A then
    (deframeLoop d codec2_out proto_out vc_out 0 0
        ((List.range d.frame_size).map (fun i => bits_in.getD i 0))).2.2.2.2.2
  else 0

/-! ### Proof-infrastructure definitions

The following definitions do not model new source code; they only name
the cumulative effect of code already modelled above (the bit-writing
part of the per-bit loop), and properties used as hypotheses of
theorems. -/

/-- The cumulative effect on `(bits, bitptr)` of the first two lines of
the per-bit loop of `fvhff_deframe_bits`
(`bits[bitptr] = bits_in[i]; bitptr++; if(bitptr >= frame_size) bitptr = 0;`)
over a list of input bits. -/
def writeBits (frame_size : Nat) : List Nat → Nat → List Nat → List Nat × Nat
  | B, p, [] => (B, p)
  | B, p, b :: rest =>
      writeBits frame_size (B.set p b) (if p + 1 ≥ frame_size then 0 else p + 1)
        rest

/-- Position of ring slot `j` relative to a write cursor `p` in a ring of
size `frame_size`: the number of steps after which a cursor starting at
`p` reaches `j`. -/
def wrapOffset (p frame_size j : Nat) : Nat :=
  if p ≤ j then j - p else j + frame_size - p

/-- `noEarlyMatch frame` says that while the 96 bits of `frame` are being
shifted into a fresh deframer (all-zero ring, cursor 0), none of the
first 95 per-bit unique-word checks of `fvhff_deframe_bits` succeeds, so
the deframer cannot lock onto a spurious, misaligned unique-word image.
The deframer record below is exactly the intermediate state after bits
`frame[0..k]` have been written. -/
def noEarlyMatch (frame : List Nat) : Prop :=
  ∀ k, k < 95 →
    fvhff_match_uw
      { bits := frame.take (k + 1) ++ List.replicate (95 - k) 0,
        ftype := FREEDV_VHF_FRAME_A, state := ST_NOSYNC, bitptr := k + 1,
        last_uw := 0, miss_cnt := 0, frame_size := 96 } uw_first_tol = false

instance (frame : List Nat) : Decidable (noEarlyMatch frame) := by
  unfold noEarlyMatch; infer_instance

/-- Flip (complement) the 0/1 frame bits at the listed positions. -/
def flipBits (frame : List Nat) (ps : List Nat) : List Nat :=
  ps.foldl (fun f p => f.set p (1 - f.getD p 0)) frame

/-- Fallback value used to strip `Option` from `fvhff_create_deframer`
at concrete inputs. -/
def fallbackDeframer : Deframer :=
  { bits := [], ftype := 0, state := 0, bitptr := 0, last_uw := 0,
    miss_cnt := 0, frame_size := 0 }

/-! ## Basic lemmas -/

theorem getD_ext {L M : List Nat} (hlen : L.length = M.length)
    (h : ∀ j, j < L.length → L.getD j 0 = M.getD j 0) : L = M := by
  apply List.ext_getElem hlen
  intro i h1 h2
  have hj := h i h1
  rwa [List.getD_eq_getElem _ _ h1, List.getD_eq_getElem _ _ h2] at hj

theorem getD_set_of_lt (l : List Nat) (i j v : Nat) (hj : j < l.length) :
    (l.set i v).getD j 0 = if i = j then v else l.getD j 0 := by
  rw [List.getD_eq_getElem _ _ (by simpa using hj), List.getElem_set]
  split_ifs with h
  · rfl
  · rw [List.getD_eq_getElem _ _ hj]

theorem writeBits_cons (fs : Nat) (B : List Nat) (p b : Nat) (l : List Nat) :
    writeBits fs B p (b :: l) =
      writeBits fs (B.set p b) (if p + 1 ≥ fs then 0 else p + 1) l := rfl

theorem writeBits_length (fs : Nat) (l : List Nat) :
    ∀ (B : List Nat) (p : Nat), (writeBits fs B p l).1.length = B.length := by
  induction l with
  | nil => intro B p; rfl
  | cons b rest ih =>
      intro B p
      rw [writeBits_cons, ih]
      simp

theorem writeBits_bitptr (fs : Nat) (l : List Nat) :
    ∀ (B : List Nat) (p : Nat), p < fs → l.length ≤ fs →
      (writeBits fs B p l).2 =
        if p + l.length ≥ fs then p + l.length - fs else p + l.length := by
  induction l with
  | nil =>
      intro B p hp _
      simp only [writeBits, List.length_nil, Nat.add_zero]
      split_ifs <;> omega
  | cons b rest ih =>
      intro B p hp hlen
      rw [writeBits_cons]
      simp only [List.length_cons] at hlen ⊢
      by_cases h1 : p + 1 ≥ fs
      · rw [if_pos h1, ih _ 0 (by omega) (by omega)]
        split_ifs <;> omega
      · rw [if_neg h1, ih _ (p + 1) (by omega) (by omega)]
        split_ifs <;> omega

theorem writeBits_getD (fs : Nat) (l : List Nat) :
    ∀ (B : List Nat) (p : Nat), B.length = fs → p < fs → l.length ≤ fs →
      ∀ j, j < fs →
        (writeBits fs B p l).1.getD j 0 =
          if wrapOffset p fs j < l.length then l.getD (wrapOffset p fs j) 0
          else B.getD j 0 := by
  induction l with
  | nil =>
      intro B p _ _ _ j _
      simp [writeBits, wrapOffset]
  | cons b rest ih =>
      intro B p hB hp hlen j hj
      rw [writeBits_cons]
      have hB' : (B.set p b).length = fs := by simp [hB]
      have hp' : (if p + 1 ≥ fs then 0 else p + 1) < fs := by split_ifs <;> omega
      have hlen' : rest.length ≤ fs := by
        simp only [List.length_cons] at hlen; omega
      rw [ih _ _ hB' hp' hlen' j hj]
      have hlen2 : rest.length + 1 ≤ fs := by simpa using hlen
      have hsetD := getD_set_of_lt B p j b (by omega)
      by_cases hpj : j = p
      · have hwp : wrapOffset p fs j = 0 := by rw [hpj]; simp [wrapOffset]
        have h1 : ¬ wrapOffset (if p + 1 ≥ fs then 0 else p + 1) fs j <
            rest.length := by
          unfold wrapOffset; split_ifs <;> omega
        rw [if_neg h1, hsetD, if_pos hpj.symm, hwp,
          if_pos (by simp only [List.length_cons]; omega)]
        rfl
      · have h2 : wrapOffset p fs j ≥ 1 := by
          unfold wrapOffset; split_ifs <;> omega
        have h3 : wrapOffset (if p + 1 ≥ fs then 0 else p + 1) fs j =
            wrapOffset p fs j - 1 := by
          unfold wrapOffset; split_ifs <;> omega
        have hne : p ≠ j := fun hc => hpj hc.symm
        rw [h3, hsetD, if_neg hne]
        by_cases h4 : wrapOffset p fs j - 1 < rest.length
        · rw [if_pos h4, if_pos (by simp only [List.length_cons]; omega)]
          obtain ⟨m, hm⟩ : ∃ m, wrapOffset p fs j = m + 1 :=
            ⟨wrapOffset p fs j - 1, by omega⟩
          rw [hm]
          simp
        · rw [if_neg h4, if_neg (by simp only [List.length_cons]; omega)]

/-! ## Characterization of the unique-word matcher -/

theorem matchLoop_eq_sum (bits uw : List Nat) (fs : Nat) (n : Nat) :
    ∀ (iuw ibit diff : Nat), ibit < fs →
      matchLoop bits uw fs n iuw ibit diff =
        diff + ∑ t ∈ Finset.range n,
          (if bits.getD ((ibit + t) % fs) 0 ≠ uw.getD (iuw + t) 0 then 1
           else 0) := by
  induction n with
  | zero => intro iuw ibit diff _; simp [matchLoop]
  | succ m ih =>
      intro iuw ibit diff hibit
      have hfs : 0 < fs := by omega
      have hwrap : (if ibit + 1 ≥ fs then 0 else ibit + 1) = (ibit + 1) % fs := by
        rcases Nat.lt_or_ge (ibit + 1) fs with h | h
        · rw [if_neg (by omega), Nat.mod_eq_of_lt h]
        · have : ibit + 1 = fs := by omega
          rw [if_pos (by omega), this, Nat.mod_self]
      show matchLoop bits uw fs m (iuw + 1)
          (if ibit + 1 ≥ fs then 0 else ibit + 1)
          (if bits.getD ibit 0 ≠ uw.getD iuw 0 then diff + 1 else diff) = _
      rw [hwrap, ih (iuw + 1) ((ibit + 1) % fs) _ (Nat.mod_lt _ hfs)]
      rw [Finset.sum_range_succ' _ m]
      have hshift : ∀ t, ((ibit + 1) % fs + t) % fs = (ibit + (t + 1)) % fs := by
        intro t
        rw [Nat.mod_add_mod]
        congr 1
        omega
      have hsum : ∑ t ∈ Finset.range m,
          (if bits.getD (((ibit + 1) % fs + t) % fs) 0 ≠ uw.getD (iuw + 1 + t) 0
           then 1 else 0) =
          ∑ t ∈ Finset.range m,
          (if bits.getD ((ibit + (t + 1)) % fs) 0 ≠ uw.getD (iuw + (t + 1)) 0
           then 1 else 0) := by
        apply Finset.sum_congr rfl
        intro t _
        rw [hshift t]
        have harg : iuw + 1 + t = iuw + (t + 1) := by omega
        rw [harg]
      rw [hsum]
      simp only [Nat.add_zero]
      have hg0 : bits.getD (ibit % fs) 0 = bits.getD ibit 0 := by
        rw [Nat.mod_eq_of_lt hibit]
      simp only [hg0]
      split_ifs <;> omega

theorem fvhff_match_uw_eq (d : Deframer) (tol : Nat)
    (hf : d.ftype = FREEDV_VHF_FRAME_A) :
    fvhff_match_uw d tol =
      decide (matchLoop d.bits A_uw d.frame_size 16 0
        (if d.bitptr + 40 ≥ d.frame_size then d.bitptr + 40 - d.frame_size
         else d.bitptr + 40) 0 ≤ tol) := by
  rw [fvhff_match_uw]
  rw [if_pos hf]

theorem match_uw_char (d : Deframer) (tol : Nat)
    (hf : d.ftype = FREEDV_VHF_FRAME_A) (hfs : d.frame_size = 96)
    (hp : d.bitptr < 96) :
    fvhff_match_uw d tol =
      decide ((∑ k ∈ Finset.range 16,
        if d.bits.getD ((d.bitptr + 40 + k) % 96) 0 ≠ A_uw.getD k 0 then 1
        else 0) ≤ tol) := by
  rw [fvhff_match_uw_eq d tol hf, hfs]
  have h0 : (if d.bitptr + 40 ≥ 96 then d.bitptr + 40 - 96 else d.bitptr + 40)
      = (d.bitptr + 40) % 96 := by
    split_ifs <;> omega
  rw [h0, matchLoop_eq_sum d.bits A_uw 96 16 0 _ 0 (Nat.mod_lt _ (by omega))]
  simp only [Nat.zero_add]
  have hsum3 : (∑ t ∈ Finset.range 16,
      if d.bits.getD (((d.bitptr + 40) % 96 + t) % 96) 0 ≠ A_uw.getD t 0
      then 1 else 0) =
      ∑ k ∈ Finset.range 16,
      if d.bits.getD ((d.bitptr + 40 + k) % 96) 0 ≠ A_uw.getD k 0 then 1
      else 0 := by
    apply Finset.sum_congr rfl
    intro t _
    rw [Nat.mod_add_mod]
  simp only [hsum3]

/-! ## Step lemmas for the per-bit state machine -/

theorem deframeStep_sync_quiet (d : Deframer) (c2 : List Nat)
    (po vo : Option (List Nat)) (e cnt b : Nat) (h1 : d.state = ST_SYNC)
    (h2 : d.last_uw + 1 ≠ d.frame_size) :
    deframeStep d c2 po vo e cnt b =
      ({ d with bits := d.bits.set d.bitptr b,
                bitptr := if d.bitptr + 1 ≥ d.frame_size then 0
                          else d.bitptr + 1,
                last_uw := d.last_uw + 1 }, c2, po, vo, e, cnt) := by
  simp only [deframeStep]
  rw [if_pos h1, if_neg h2]

theorem deframeStep_sync_fire (d : Deframer) (c2 : List Nat)
    (po vo : Option (List Nat)) (e cnt b : Nat) (h1 : d.state = ST_SYNC)
    (h2 : d.last_uw + 1 = d.frame_size) :
    deframeStep d c2 po vo e cnt b =
      (let dw : Deframer :=
        { d with bits := d.bits.set d.bitptr b,
                 bitptr := if d.bitptr + 1 ≥ d.frame_size then 0
                           else d.bitptr + 1,
                 last_uw := 0 }
       let miss := if ¬ fvhff_match_uw dw uw_sync_tol then d.miss_cnt + 1
                   else 0
       let d2 : Deframer :=
        { dw with miss_cnt := miss,
                  state := if miss > miss_tol then ST_NOSYNC else d.state }
       let r := fvhff_extract_frame d2 c2 po vo
       (d2, r.1, r.2.1, r.2.2, 1, cnt + 1)) := by
  simp only [deframeStep]
  rw [if_pos h1, if_pos h2]

theorem deframeStep_nosync_nomatch (d : Deframer) (c2 : List Nat)
    (po vo : Option (List Nat)) (e cnt b : Nat) (h1 : ¬ d.state = ST_SYNC)
    (h2 : fvhff_match_uw
      { d with bits := d.bits.set d.bitptr b,
               bitptr := if d.bitptr + 1 ≥ d.frame_size then 0
                         else d.bitptr + 1 } uw_first_tol = false) :
    deframeStep d c2 po vo e cnt b =
      ({ d with bits := d.bits.set d.bitptr b,
                bitptr := if d.bitptr + 1 ≥ d.frame_size then 0
                          else d.bitptr + 1 }, c2, po, vo, e, cnt) := by
  simp only [deframeStep]
  rw [if_neg h1, if_neg (by simp [h2])]

theorem deframeStep_nosync_match (d : Deframer) (c2 : List Nat)
    (po vo : Option (List Nat)) (e cnt b : Nat) (h1 : ¬ d.state = ST_SYNC)
    (h2 : fvhff_match_uw
      { d with bits := d.bits.set d.bitptr b,
               bitptr := if d.bitptr + 1 ≥ d.frame_size then 0
                         else d.bitptr + 1 } uw_first_tol = true) :
    deframeStep d c2 po vo e cnt b =
      (let d2 : Deframer :=
        { d with bits := d.bits.set d.bitptr b,
                 bitptr := if d.bitptr + 1 ≥ d.frame_size then 0
                           else d.bitptr + 1,
                 state := ST_SYNC, last_uw := 0, miss_cnt := 0 }
       let r := fvhff_extract_frame d2 c2 po vo
       (d2, r.1, r.2.1, r.2.2, 1, cnt + 1)) := by
  simp only [deframeStep]
  rw [if_neg h1, if_pos h2]

/-! ## Run lemmas for the per-bit loop -/

theorem deframeLoop_append (l1 l2 : List Nat) :
    ∀ (d : Deframer) (c2 : List Nat) (po vo : Option (List Nat)) (e cnt : Nat),
      deframeLoop d c2 po vo e cnt (l1 ++ l2) =
        (let r := deframeLoop d c2 po vo e cnt l1
         deframeLoop r.1 r.2.1 r.2.2.1 r.2.2.2.1 r.2.2.2.2.1 r.2.2.2.2.2 l2) := by
  induction l1 with
  | nil => intro d c2 po vo e cnt; rfl
  | cons b rest ih =>
      intro d c2 po vo e cnt
      show deframeLoop _ _ _ _ _ _ (b :: (rest ++ l2)) = _
      rw [deframeLoop]
      rw [ih]
      rfl

/-- While synchronized, if the countdown cannot reach `frame_size` within
the batch, the loop only shifts bits into the ring. -/
theorem deframeLoop_sync_quiet (l : List Nat) :
    ∀ (d : Deframer) (c2 : List Nat) (po vo : Option (List Nat)) (e cnt : Nat),
      d.state = ST_SYNC → d.last_uw + l.length < d.frame_size →
      deframeLoop d c2 po vo e cnt l =
        ({ d with bits := (writeBits d.frame_size d.bits d.bitptr l).1,
                  bitptr := (writeBits d.frame_size d.bits d.bitptr l).2,
                  last_uw := d.last_uw + l.length }, c2, po, vo, e, cnt) := by
  induction l with
  | nil =>
      intro d c2 po vo e cnt h1 h2
      show (d, c2, po, vo, e, cnt) = _
      simp only [writeBits, List.length_nil, Nat.add_zero]
  | cons b rest ih =>
      intro d c2 po vo e cnt h1 h2
      simp only [List.length_cons] at h2
      rw [deframeLoop]
      rw [deframeStep_sync_quiet d c2 po vo e cnt b h1 (by omega)]
      rw [ih _ c2 po vo e cnt (by simpa using h1) (by simpa using (by omega : d.last_uw + 1 + rest.length < d.frame_size))]
      rw [writeBits_cons]
      have harith : d.last_uw + 1 + rest.length = d.last_uw + (rest.length + 1) := by
        omega
      simp only [harith, List.length_cons]

/-- While unsynchronized, a batch either runs through with no match (the
loop only shifts bits in), or some prefix write makes the first-sync
check succeed, after which the state is `ST_SYNC`, the extracted flag is
1 and the countdown is below the batch length. -/
theorem deframeLoop_nosync (l : List Nat) :
    ∀ (d : Deframer) (c2 : List Nat) (po vo : Option (List Nat)) (e cnt : Nat),
      ¬ d.state = ST_SYNC → l.length ≤ d.frame_size →
      (deframeLoop d c2 po vo e cnt l =
        ({ d with bits := (writeBits d.frame_size d.bits d.bitptr l).1,
                  bitptr := (writeBits d.frame_size d.bits d.bitptr l).2 },
          c2, po, vo, e, cnt))
      ∨ ((deframeLoop d c2 po vo e cnt l).1.state = ST_SYNC
         ∧ (deframeLoop d c2 po vo e cnt l).2.2.2.2.1 = 1
         ∧ (deframeLoop d c2 po vo e cnt l).1.last_uw < l.length
         ∧ (deframeLoop d c2 po vo e cnt l).1.ftype = d.ftype
         ∧ (deframeLoop d c2 po vo e cnt l).1.frame_size = d.frame_size
         ∧ ∃ k, k < l.length ∧
            fvhff_match_uw
              { d with
                bits := (writeBits d.frame_size d.bits d.bitptr
                  (l.take (k + 1))).1,
                bitptr := (writeBits d.frame_size d.bits d.bitptr
                  (l.take (k + 1))).2 } uw_first_tol = true) := by
  induction l with
  | nil =>
      intro d c2 po vo e cnt h1 _
      left
      show (d, c2, po, vo, e, cnt) = _
      simp only [writeBits]
  | cons b rest ih =>
      intro d c2 po vo e cnt h1 hlen
      simp only [List.length_cons] at hlen
      rw [deframeLoop]
      cases hmatch : fvhff_match_uw
          { d with bits := d.bits.set d.bitptr b,
                   bitptr := if d.bitptr + 1 ≥ d.frame_size then 0
                             else d.bitptr + 1 } uw_first_tol with
      | false =>
          rw [deframeStep_nosync_nomatch d c2 po vo e cnt b h1 hmatch]
          have hstep := ih
            { d with bits := d.bits.set d.bitptr b,
                     bitptr := if d.bitptr + 1 ≥ d.frame_size then 0
                               else d.bitptr + 1 }
            c2 po vo e cnt (by simpa using h1) (by simpa using (by omega : rest.length ≤ d.frame_size))
          rcases hstep with hleft | hright
          · left
            rw [hleft]
            rw [← writeBits_cons]
          · right
            refine ⟨by simpa using hright.1, by simpa using hright.2.1,
              by have hlu := hright.2.2.1; simp only [List.length_cons]; omega,
              by simpa using hright.2.2.2.1,
              by simpa using hright.2.2.2.2.1, ?_⟩
            obtain ⟨k, hk, hkm⟩ := hright.2.2.2.2.2
            refine ⟨k + 1, by simp only [List.length_cons]; omega, ?_⟩
            have htake : (b :: rest).take (k + 1 + 1) = b :: rest.take (k + 1) := by
              simp
            rw [htake, writeBits_cons]
            exact hkm
      | true =>
          rw [deframeStep_nosync_match d c2 po vo e cnt b h1 hmatch]
          right
          have hquiet := deframeLoop_sync_quiet rest
            { d with bits := d.bits.set d.bitptr b,
                     bitptr := if d.bitptr + 1 ≥ d.frame_size then 0
                               else d.bitptr + 1,
                     state := ST_SYNC, last_uw := 0, miss_cnt := 0 }
          simp only []
          rw [hquiet _ _ _ _ _ rfl
            (by show (0 : Nat) + rest.length < d.frame_size; omega)]
          refine ⟨rfl, rfl, by simp only [List.length_cons]; omega, rfl, rfl,
            ⟨0, by simp only [List.length_cons]; omega, ?_⟩⟩
          have htake : (b :: rest).take 1 = [b] := by simp
          rw [htake, writeBits_cons]
          simpa using hmatch

theorem writeBits_append (fs : Nat) (l1 l2 : List Nat) :
    ∀ (B : List Nat) (p : Nat),
      writeBits fs B p (l1 ++ l2) =
        writeBits fs (writeBits fs B p l1).1 (writeBits fs B p l1).2 l2 := by
  induction l1 with
  | nil => intro B p; rfl
  | cons b rest ih =>
      intro B p
      show writeBits fs B p (b :: (rest ++ l2)) = _
      rw [writeBits_cons, ih, writeBits_cons]

/-- A full aligned frame fed to a synchronized deframer whose countdown
is zero: the first 95 bits only shift the ring, the 96th bit triggers
the unique-word check and the extraction. -/
theorem deframeLoop_sync_aligned (l : List Nat) (d : Deframer)
    (c2 : List Nat) (po vo : Option (List Nat)) (e cnt : Nat)
    (hlen : l.length = 96) (hfs : d.frame_size = 96)
    (hst : d.state = ST_SYNC) (hlu : d.last_uw = 0) (hp : d.bitptr < 96) :
    deframeLoop d c2 po vo e cnt l =
      (let dw : Deframer :=
        { d with bits := (writeBits 96 d.bits d.bitptr l).1,
                 bitptr := d.bitptr, last_uw := 0 }
       let miss := if ¬ fvhff_match_uw dw uw_sync_tol then d.miss_cnt + 1
                   else 0
       let d2 : Deframer :=
        { dw with miss_cnt := miss,
                  state := if miss > miss_tol then ST_NOSYNC else d.state }
       let r := fvhff_extract_frame d2 c2 po vo
       (d2, r.1, r.2.1, r.2.2, 1, cnt + 1)) := by
  obtain ⟨b95, hb95⟩ : ∃ b, l.drop 95 = [b] := by
    rw [← List.length_eq_one]
    rw [List.length_drop, hlen]
  have hsplit : l = l.take 95 ++ [b95] := by
    rw [← hb95, List.take_append_drop]
  have hlen95 : (l.take 95).length = 95 := by
    rw [List.length_take, hlen]
    omega
  have hq := deframeLoop_sync_quiet (l.take 95) d c2 po vo e cnt hst
    (by rw [hlen95, hlu, hfs]; omega)
  rw [hsplit, deframeLoop_append]
  simp only []
  rw [hq]
  simp only []
  rw [deframeLoop]
  have hstep := deframeStep_sync_fire
    { d with
        bits := (writeBits d.frame_size d.bits d.bitptr (l.take 95)).1,
        bitptr := (writeBits d.frame_size d.bits d.bitptr (l.take 95)).2,
        last_uw := d.last_uw + (l.take 95).length }
    c2 po vo e cnt b95 hst
    (show d.last_uw + (l.take 95).length + 1 = d.frame_size by
      rw [hlen95, hlu, hfs])
  rw [hstep, deframeLoop]
  have hwfull : writeBits 96 d.bits d.bitptr (l.take 95 ++ [b95]) =
      ((writeBits 96 d.bits d.bitptr (l.take 95)).1.set
        (writeBits 96 d.bits d.bitptr (l.take 95)).2 b95,
       if (writeBits 96 d.bits d.bitptr (l.take 95)).2 + 1 ≥ 96 then 0
       else (writeBits 96 d.bits d.bitptr (l.take 95)).2 + 1) := by
    rw [writeBits_append, writeBits_cons]
    rfl
  have hptr95 : (writeBits 96 d.bits d.bitptr (l.take 95)).2 =
      if d.bitptr + 95 ≥ 96 then d.bitptr + 95 - 96 else d.bitptr + 95 := by
    rw [writeBits_bitptr 96 _ _ _ hp (by rw [hlen95]; omega), hlen95]
  have hptrfin : (if (writeBits 96 d.bits d.bitptr (l.take 95)).2 + 1 ≥ 96
      then 0 else (writeBits 96 d.bits d.bitptr (l.take 95)).2 + 1) =
      d.bitptr := by
    rw [hptr95]
    split_ifs <;> omega
  simp only [hfs, hwfull, hptrfin]

theorem range_map_getD (n : Nat) (bin : List Nat) (h : bin.length = n) :
    (List.range n).map (fun i => bin.getD i 0) = bin := by
  apply getD_ext
  · simp [h]
  · intro j hj
    have hj' : j < n := by simpa using hj
    rw [List.getD_eq_getElem _ _ (by simpa using hj), List.getElem_map,
      List.getElem_range]

theorem writeBits_getD_rot (B : List Nat) (p : Nat) (l : List Nat) (t : Nat)
    (hB : B.length = 96) (hp : p < 96) (hl : l.length = 96) (ht : t < 96) :
    (writeBits 96 B p l).1.getD ((p + t) % 96) 0 = l.getD t 0 := by
  rw [writeBits_getD 96 l B p hB hp (by omega) ((p + t) % 96)
    (Nat.mod_lt _ (by omega))]
  have hoff : wrapOffset p 96 ((p + t) % 96) = t := by
    unfold wrapOffset
    rcases Nat.lt_or_ge (p + t) 96 with hc | hc
    · rw [Nat.mod_eq_of_lt hc]
      split_ifs <;> omega
    · have hmod : (p + t) % 96 = p + t - 96 := by omega
      rw [hmod]
      split_ifs <;> omega
  rw [hoff, if_pos (by omega)]

theorem deframe_bits_eq_loop (d : Deframer) (c2 : List Nat)
    (po vo : Option (List Nat)) (bin : List Nat)
    (hf : d.ftype = FREEDV_VHF_FRAME_A) :
    fvhff_deframe_bits d c2 po vo bin =
      (let r := deframeLoop d c2 po vo 0 0
        ((List.range d.frame_size).map (fun i => bin.getD i 0))
       (r.1, r.2.1, r.2.2.1, r.2.2.2.1, r.2.2.2.2.1)) := by
  rw [fvhff_deframe_bits, if_pos hf]

theorem extraction_count_eq_loop (d : Deframer) (c2 : List Nat)
    (po vo : Option (List Nat)) (bin : List Nat)
    (hf : d.ftype = FREEDV_VHF_FRAME_A) :
    fvhff_extraction_count d c2 po vo bin =
      (deframeLoop d c2 po vo 0 0
        ((List.range d.frame_size).map (fun i => bin.getD i 0))).2.2.2.2.2 := by
  rw [fvhff_extraction_count, if_pos hf]

/-- A synchronized, frame-aligned deframer that receives a 96-bit batch
whose 16 bits at positions 40..55 are the complement of the unique word:
the countdown check fires, the match fails, the miss counter increments,
and the frame is extracted regardless. -/
theorem sync_call_flipped_uw (d : Deframer) (c2 : List Nat)
    (po vo : Option (List Nat)) (bin : List Nat)
    (hf : d.ftype = FREEDV_VHF_FRAME_A) (hfs : d.frame_size = 96)
    (hst : d.state = ST_SYNC) (hlu : d.last_uw = 0)
    (hp : d.bitptr < 96) (hb : d.bits.length = 96) (hlen : bin.length = 96)
    (hu : ∀ k, k < 16 → bin.getD (40 + k) 0 = 1 - A_uw.getD k 0) :
    fvhff_deframe_bits d c2 po vo bin =
      (let d2 : Deframer :=
        { d with bits := (writeBits 96 d.bits d.bitptr bin).1,
                 bitptr := d.bitptr, last_uw := 0,
                 miss_cnt := d.miss_cnt + 1,
                 state := if d.miss_cnt + 1 > miss_tol then ST_NOSYNC
                          else d.state }
       let r := fvhff_extract_frame d2 c2 po vo
       (d2, r.1, r.2.1, r.2.2, 1)) := by
  rw [deframe_bits_eq_loop d c2 po vo bin hf]
  rw [hfs, range_map_getD 96 bin hlen]
  rw [deframeLoop_sync_aligned bin d c2 po vo 0 0 hlen hfs hst hlu hp]
  have hmatch : fvhff_match_uw
      { d with bits := (writeBits 96 d.bits d.bitptr bin).1,
               bitptr := d.bitptr, last_uw := 0 } uw_sync_tol = false := by
    rw [match_uw_char _ _ (by simpa using hf) (by simpa using hfs)
      (by simpa using hp)]
    simp only []
    have hflip : ∀ k, k < 16 → (1 - A_uw.getD k 0) ≠ A_uw.getD k 0 := by
      decide
    have hterm : ∀ k, k < 16 →
        (if (writeBits 96 d.bits d.bitptr bin).1.getD
            ((d.bitptr + 40 + k) % 96) 0 ≠ A_uw.getD k 0 then 1 else 0) =
          (1 : Nat) := by
      intro k hk
      have hidx : d.bitptr + 40 + k = d.bitptr + (40 + k) := by omega
      rw [hidx, writeBits_getD_rot d.bits d.bitptr bin (40 + k) hb hp hlen
        (by omega)]
      rw [hu k hk]
      rw [if_pos (hflip k hk)]
    rw [Finset.sum_congr rfl (fun k hk => hterm k (Finset.mem_range.mp hk))]
    simp [uw_sync_tol]
  simp only [hmatch]
  simp [miss_tol, hfs]

/-- Projection form of `sync_call_flipped_uw`. -/
theorem sync_call_flipped_uw_spec (d : Deframer) (c2 : List Nat)
    (po vo : Option (List Nat)) (bin : List Nat)
    (hf : d.ftype = FREEDV_VHF_FRAME_A) (hfs : d.frame_size = 96)
    (hst : d.state = ST_SYNC) (hlu : d.last_uw = 0)
    (hp : d.bitptr < 96) (hb : d.bits.length = 96) (hlen : bin.length = 96)
    (hu : ∀ k, k < 16 → bin.getD (40 + k) 0 = 1 - A_uw.getD k 0) :
    (fvhff_deframe_bits d c2 po vo bin).2.2.2.2 = 1 ∧
    (fvhff_deframe_bits d c2 po vo bin).1.state =
      (if d.miss_cnt + 1 > miss_tol then ST_NOSYNC else d.state) ∧
    (fvhff_deframe_bits d c2 po vo bin).1.ftype = d.ftype ∧
    (fvhff_deframe_bits d c2 po vo bin).1.frame_size = d.frame_size ∧
    (fvhff_deframe_bits d c2 po vo bin).1.bitptr = d.bitptr ∧
    (fvhff_deframe_bits d c2 po vo bin).1.last_uw = 0 ∧
    (fvhff_deframe_bits d c2 po vo bin).1.miss_cnt = d.miss_cnt + 1 ∧
    (fvhff_deframe_bits d c2 po vo bin).1.bits.length = d.bits.length := by
  rw [sync_call_flipped_uw d c2 po vo bin hf hfs hst hlu hp hb hlen hu]
  refine ⟨rfl, rfl, rfl, rfl, rfl, rfl, rfl, ?_⟩
  show (writeBits 96 d.bits d.bitptr bin).1.length = d.bits.length
  exact writeBits_length 96 bin d.bits d.bitptr

/-- **C3**: sync hysteresis over three frame-aligned batches with fully
complemented unique words. -/
theorem c3_sync_hysteresis (d : Deframer) (c2 : List Nat)
    (po vo : Option (List Nat)) (b1 b2 b3 : List Nat)
    (hf : d.ftype = FREEDV_VHF_FRAME_A) (hfs : d.frame_size = 96)
    (hst : d.state = ST_SYNC) (hlu : d.last_uw = 0) (hms : d.miss_cnt = 0)
    (hp : d.bitptr < 96) (hb : d.bits.length = 96)
    (hl1 : b1.length = 96) (hl2 : b2.length = 96) (hl3 : b3.length = 96)
    (hu1 : ∀ k, k < 16 → b1.getD (40 + k) 0 = 1 - A_uw.getD k 0)
    (hu2 : ∀ k, k < 16 → b2.getD (40 + k) 0 = 1 - A_uw.getD k 0)
    (hu3 : ∀ k, k < 16 → b3.getD (40 + k) 0 = 1 - A_uw.getD k 0) :
    (let r1 := fvhff_deframe_bits d c2 po vo b1
     let r2 := fvhff_deframe_bits r1.1 r1.2.1 r1.2.2.1 r1.2.2.2.1 b2
     let r3 := fvhff_deframe_bits r2.1 r2.2.1 r2.2.2.1 r2.2.2.2.1 b3
     r1.2.2.2.2 = 1 ∧ r1.1.state = ST_SYNC ∧
     r2.2.2.2.2 = 1 ∧ r2.1.state = ST_SYNC ∧
     r3.2.2.2.2 = 1 ∧ r3.1.state = ST_NOSYNC) := by
  simp only []
  obtain ⟨he1, hs1, hft1, hfs1, hbp1, hlu1, hmc1, hbl1⟩ :=
    sync_call_flipped_uw_spec d c2 po vo b1 hf hfs hst hlu hp hb hl1 hu1
  have hs1' : (fvhff_deframe_bits d c2 po vo b1).1.state = ST_SYNC := by
    rw [hs1, hms, hst]
    norm_num [miss_tol]
  obtain ⟨he2, hs2, hft2, hfs2, hbp2, hlu2, hmc2, hbl2⟩ :=
    sync_call_flipped_uw_spec (fvhff_deframe_bits d c2 po vo b1).1
      (fvhff_deframe_bits d c2 po vo b1).2.1
      (fvhff_deframe_bits d c2 po vo b1).2.2.1
      (fvhff_deframe_bits d c2 po vo b1).2.2.2.1 b2
      (hft1.trans hf) (hfs1.trans hfs) hs1' hlu1 (hbp1 ▸ hp)
      (hbl1.trans hb) hl2 hu2
  have hs2' : (fvhff_deframe_bits (fvhff_deframe_bits d c2 po vo b1).1
      (fvhff_deframe_bits d c2 po vo b1).2.1
      (fvhff_deframe_bits d c2 po vo b1).2.2.1
      (fvhff_deframe_bits d c2 po vo b1).2.2.2.1 b2).1.state = ST_SYNC := by
    rw [hs2, hmc1, hms, hs1']
    norm_num [miss_tol]
  obtain ⟨he3, hs3, hft3, hfs3, hbp3, hlu3, hmc3, hbl3⟩ :=
    sync_call_flipped_uw_spec
      (fvhff_deframe_bits (fvhff_deframe_bits d c2 po vo b1).1
        (fvhff_deframe_bits d c2 po vo b1).2.1
        (fvhff_deframe_bits d c2 po vo b1).2.2.1
        (fvhff_deframe_bits d c2 po vo b1).2.2.2.1 b2).1
      (fvhff_deframe_bits (fvhff_deframe_bits d c2 po vo b1).1
        (fvhff_deframe_bits d c2 po vo b1).2.1
        (fvhff_deframe_bits d c2 po vo b1).2.2.1
        (fvhff_deframe_bits d c2 po vo b1).2.2.2.1 b2).2.1
      (fvhff_deframe_bits (fvhff_deframe_bits d c2 po vo b1).1
        (fvhff_deframe_bits d c2 po vo b1).2.1
        (fvhff_deframe_bits d c2 po vo b1).2.2.1
        (fvhff_deframe_bits d c2 po vo b1).2.2.2.1 b2).2.2.1
      (fvhff_deframe_bits (fvhff_deframe_bits d c2 po vo b1).1
        (fvhff_deframe_bits d c2 po vo b1).2.1
        (fvhff_deframe_bits d c2 po vo b1).2.2.1
        (fvhff_deframe_bits d c2 po vo b1).2.2.2.1 b2).2.2.2.1 b3
      (hft2.trans (hft1.trans hf)) (hfs2.trans (hfs1.trans hfs)) hs2' hlu2
      (hbp2 ▸ (hbp1 ▸ hp)) (hbl2.trans (hbl1.trans hb)) hl3 hu3
  refine ⟨he1, hs1', he2, hs2', he3, ?_⟩
  rw [hs3, hmc2, hmc1, hms]
  norm_num [miss_tol, ST_NOSYNC]

/-! ## Bounds on the number of extraction events per call -/

theorem deframeLoop_cnt_nosync (l : List Nat) :
    ∀ (d : Deframer) (c2 : List Nat) (po vo : Option (List Nat)) (e cnt : Nat),
      ¬ d.state = ST_SYNC → l.length ≤ d.frame_size →
      (deframeLoop d c2 po vo e cnt l).2.2.2.2.2 ≤ cnt + 1 := by
  induction l with
  | nil => intro d c2 po vo e cnt _ _; show cnt ≤ cnt + 1; omega
  | cons b rest ih =>
      intro d c2 po vo e cnt h1 hlen
      simp only [List.length_cons] at hlen
      rw [deframeLoop]
      cases hmatch : fvhff_match_uw
          { d with bits := d.bits.set d.bitptr b,
                   bitptr := if d.bitptr + 1 ≥ d.frame_size then 0
                             else d.bitptr + 1 } uw_first_tol with
      | false =>
          rw [deframeStep_nosync_nomatch d c2 po vo e cnt b h1 hmatch]
          exact ih _ _ _ _ _ _ (by simpa using h1)
            (by simpa using (by omega : rest.length ≤ d.frame_size))
      | true =>
          rw [deframeStep_nosync_match d c2 po vo e cnt b h1 hmatch]
          simp only []
          rw [deframeLoop_sync_quiet rest _ _ _ _ _ _ rfl
            (by show (0 : Nat) + rest.length < d.frame_size; omega)]

theorem deframeLoop_cnt_sync (l : List Nat) :
    ∀ (d : Deframer) (c2 : List Nat) (po vo : Option (List Nat)) (e cnt : Nat),
      d.state = ST_SYNC → l.length ≤ d.frame_size →
      (deframeLoop d c2 po vo e cnt l).2.2.2.2.2 ≤ cnt + 2 := by
  induction l with
  | nil => intro d c2 po vo e cnt _ _; show cnt ≤ cnt + 2; omega
  | cons b rest ih =>
      intro d c2 po vo e cnt h1 hlen
      simp only [List.length_cons] at hlen
      rw [deframeLoop]
      by_cases hlast : d.last_uw + 1 = d.frame_size
      · rw [deframeStep_sync_fire d c2 po vo e cnt b h1 hlast]
        simp only []
        by_cases hmiss : (if ¬ fvhff_match_uw
            { d with bits := d.bits.set d.bitptr b,
                     bitptr := if d.bitptr + 1 ≥ d.frame_size then 0
                               else d.bitptr + 1,
                     last_uw := 0 } uw_sync_tol then d.miss_cnt + 1 else 0) >
            miss_tol
        · rw [if_pos hmiss]
          refine le_trans (deframeLoop_cnt_nosync rest _ _ _ _ _ _ ?_ ?_)
            (by omega)
          · show ¬ (ST_NOSYNC = ST_SYNC)
            decide
          · show rest.length ≤ d.frame_size
            omega
        · rw [if_neg hmiss]
          rw [deframeLoop_sync_quiet rest _ _ _ _ _ _ (by simpa using h1)
            (by show (0 : Nat) + rest.length < d.frame_size; omega)]
          show cnt + 1 ≤ cnt + 2
          omega
      · rw [deframeStep_sync_quiet d c2 po vo e cnt b h1 hlast]
        exact ih _ _ _ _ _ _ (by simpa using h1)
          (by simpa using (by omega : rest.length ≤ d.frame_size))

/-! ## Untouched-output lemmas -/

theorem deframeStep_cases (d : Deframer) (c2 : List Nat)
    (po vo : Option (List Nat)) (e cnt b : Nat) :
    ((deframeStep d c2 po vo e cnt b).2.1 = c2 ∧
     (deframeStep d c2 po vo e cnt b).2.2.1 = po ∧
     (deframeStep d c2 po vo e cnt b).2.2.2.1 = vo ∧
     (deframeStep d c2 po vo e cnt b).2.2.2.2.1 = e)
    ∨ (deframeStep d c2 po vo e cnt b).2.2.2.2.1 = 1 := by
  simp only [deframeStep]
  split_ifs <;> simp

theorem deframeLoop_flag_sticky (l : List Nat) :
    ∀ (d : Deframer) (c2 : List Nat) (po vo : Option (List Nat)) (cnt : Nat),
      (deframeLoop d c2 po vo 1 cnt l).2.2.2.2.1 = 1 := by
  induction l with
  | nil => intro d c2 po vo cnt; rfl
  | cons b rest ih =>
      intro d c2 po vo cnt
      rw [deframeLoop]
      have he : (deframeStep d c2 po vo 1 cnt b).2.2.2.2.1 = 1 := by
        rcases deframeStep_cases d c2 po vo 1 cnt b with h | h
        · exact h.2.2.2
        · exact h
      rw [he]
      exact ih _ _ _ _ _

theorem deframeLoop_untouched (l : List Nat) :
    ∀ (d : Deframer) (c2 : List Nat) (po vo : Option (List Nat)) (e cnt : Nat),
      ((deframeLoop d c2 po vo e cnt l).2.1 = c2 ∧
       (deframeLoop d c2 po vo e cnt l).2.2.1 = po ∧
       (deframeLoop d c2 po vo e cnt l).2.2.2.1 = vo ∧
       (deframeLoop d c2 po vo e cnt l).2.2.2.2.1 = e)
      ∨ (deframeLoop d c2 po vo e cnt l).2.2.2.2.1 = 1 := by
  induction l with
  | nil => intro d c2 po vo e cnt; left; exact ⟨rfl, rfl, rfl, rfl⟩
  | cons b rest ih =>
      intro d c2 po vo e cnt
      rw [deframeLoop]
      rcases deframeStep_cases d c2 po vo e cnt b with ⟨h1, h2, h3, h4⟩ | h
      · rw [h1, h2, h3, h4]
        exact ih _ _ _ _ _ _
      · right
        rw [h]
        exact deframeLoop_flag_sticky rest _ _ _ _ _

/-! ## Claim theorems: C5 and C9 -/

set_option maxRecDepth 100000 in
set_option maxHeartbeats 1000000 in
/-- **C5** (counterexample): there is a deframer state reachable from
`fvhff_create_deframer` by three `fvhff_deframe_bits` calls from which a
single call on an exactly-96-bit batch performs two extraction events,
refuting "at most one extraction per aligned-size call".  The first call
synchronizes on a misaligned unique-word image (at offset 0 in the
batch), the next two calls miss, and in the fourth call the countdown
check misses a third time (dropping sync mid-call) after which the
aligned unique word at offset 40 is matched again in the same call. -/
theorem c5_counterexample :
    fvhff_extraction_count
      (fvhff_deframe_bits
        (fvhff_deframe_bits
          (fvhff_deframe_bits
            ((fvhff_create_deframer FREEDV_VHF_FRAME_A).getD fallbackDeframer)
            (List.replicate 7 0) none none
            (A_uw ++ List.replicate 80 0)).1
          (List.replicate 7 0) none none (List.replicate 96 0)).1
        (List.replicate 7 0) none none (List.replicate 96 0)).1
      (List.replicate 7 0) none none
      (List.replicate 40 0 ++ A_uw ++ List.replicate 40 0) = 2 := by
  decide

/-- **C5** (amended): every `fvhff_deframe_bits` call performs at most
two extraction events, for every deframer state and every input; and a
second event can only arise when the call drops synchronization at the
countdown check and then re-acquires it within the same call. -/
theorem c5_at_most_two_extractions (d : Deframer) (c2 : List Nat)
    (po vo : Option (List Nat)) (bin : List Nat) :
    fvhff_extraction_count d c2 po vo bin ≤ 2 := by
  rw [fvhff_extraction_count]
  split_ifs with hf
  · have hlen : ((List.range d.frame_size).map
        (fun i => bin.getD i 0)).length ≤ d.frame_size := by
      simp
    by_cases hst : d.state = ST_SYNC
    · exact deframeLoop_cnt_sync _ d c2 po vo 0 0 hst hlen
    · exact le_trans (deframeLoop_cnt_nosync _ d c2 po vo 0 0 hst hlen)
        (by omega)
  · omega

/-- **C9**: if a `fvhff_deframe_bits` call reports no extraction
(returns 0), the three caller-supplied output arrays are returned with
exactly their previous contents. -/
theorem c9_outputs_untouched (d : Deframer) (c2 : List Nat)
    (po vo : Option (List Nat)) (bin : List Nat)
    (h : (fvhff_deframe_bits d c2 po vo bin).2.2.2.2 = 0) :
    (fvhff_deframe_bits d c2 po vo bin).2.1 = c2 ∧
    (fvhff_deframe_bits d c2 po vo bin).2.2.1 = po ∧
    (fvhff_deframe_bits d c2 po vo bin).2.2.2.1 = vo := by
  rw [fvhff_deframe_bits] at h ⊢
  split_ifs at h ⊢ with hf
  · simp only [] at h ⊢
    rcases deframeLoop_untouched
        ((List.range d.frame_size).map (fun i => bin.getD i 0))
        d c2 po vo 0 0 with ⟨h1, h2, h3, _⟩ | hone
    · exact ⟨h1, h2, h3⟩
    · rw [hone] at h
      exact absurd h (by decide)
  · exact ⟨rfl, rfl, rfl⟩

set_option maxRecDepth 100000 in
set_option maxHeartbeats 1000000 in
/-- Witness for C9: a fresh Type A deframer fed 96 zero bits never
matches the unique word, reports 0, and leaves the outputs untouched. -/
theorem c9_outputs_untouched_witness :
    (fvhff_deframe_bits
      ((fvhff_create_deframer FREEDV_VHF_FRAME_A).getD fallbackDeframer)
      (List.replicate 7 9) (some [7, 7, 7]) (some [5, 5])
      (List.replicate 96 0)).2.2.2.2 = 0 ∧
    ((fvhff_deframe_bits
      ((fvhff_create_deframer FREEDV_VHF_FRAME_A).getD fallbackDeframer)
      (List.replicate 7 9) (some [7, 7, 7]) (some [5, 5])
      (List.replicate 96 0)).2.1 = List.replicate 7 9 ∧
     (fvhff_deframe_bits
      ((fvhff_create_deframer FREEDV_VHF_FRAME_A).getD fallbackDeframer)
      (List.replicate 7 9) (some [7, 7, 7]) (some [5, 5])
      (List.replicate 96 0)).2.2.1 = some [7, 7, 7] ∧
     (fvhff_deframe_bits
      ((fvhff_create_deframer FREEDV_VHF_FRAME_A).getD fallbackDeframer)
      (List.replicate 7 9) (some [7, 7, 7]) (some [5, 5])
      (List.replicate 96 0)).2.2.2.1 = some [5, 5]) :=
  ⟨by decide,
   c9_outputs_untouched
     ((fvhff_create_deframer FREEDV_VHF_FRAME_A).getD fallbackDeframer)
     (List.replicate 7 9) (some [7, 7, 7]) (some [5, 5])
     (List.replicate 96 0) (by decide)⟩

set_option maxRecDepth 100000 in
set_option maxHeartbeats 1000000 in
/-- Witness for C3: a synchronized, aligned deframer over an all-zero
ring, fed the same complemented-UW batch three times. -/
theorem c3_sync_hysteresis_witness :
    (let d : Deframer :=
      { bits := List.replicate 96 0, ftype := FREEDV_VHF_FRAME_A,
        state := ST_SYNC, bitptr := 0, last_uw := 0, miss_cnt := 0,
        frame_size := 96 }
     let bF : List Nat := List.replicate 40 0 ++
       [1,0,0,1,1,0,0,0,0,1,0,1,0,0,1,0] ++ List.replicate 40 0
     let r1 := fvhff_deframe_bits d (List.replicate 7 0) none none bF
     let r2 := fvhff_deframe_bits r1.1 r1.2.1 r1.2.2.1 r1.2.2.2.1 bF
     let r3 := fvhff_deframe_bits r2.1 r2.2.1 r2.2.2.1 r2.2.2.2.1 bF
     r1.2.2.2.2 = 1 ∧ r1.1.state = ST_SYNC ∧
     r2.2.2.2.2 = 1 ∧ r2.1.state = ST_SYNC ∧
     r3.2.2.2.2 = 1 ∧ r3.1.state = ST_NOSYNC) :=
  c3_sync_hysteresis _ _ none none _ _ _ rfl rfl rfl rfl rfl (by decide)
    (by decide) (by decide) (by decide) (by decide) (by decide) (by decide)
    (by decide)

/-! ## State-range invariant (C8) -/

theorem deframeStep_fields (d : Deframer) (c2 : List Nat)
    (po vo : Option (List Nat)) (e cnt b : Nat) :
    (deframeStep d c2 po vo e cnt b).1.ftype = d.ftype ∧
    (deframeStep d c2 po vo e cnt b).1.frame_size = d.frame_size ∧
    (deframeStep d c2 po vo e cnt b).1.bitptr =
      (if d.bitptr + 1 ≥ d.frame_size then 0 else d.bitptr + 1) := by
  simp only [deframeStep]
  split_ifs <;> simp

theorem deframeStep_last_uw_lt (d : Deframer) (c2 : List Nat)
    (po vo : Option (List Nat)) (e cnt b : Nat)
    (h : d.last_uw < d.frame_size) :
    (deframeStep d c2 po vo e cnt b).1.last_uw < d.frame_size := by
  simp only [deframeStep]
  split_ifs <;> simp <;> omega

theorem deframeLoop_invariant (l : List Nat) :
    ∀ (d : Deframer) (c2 : List Nat) (po vo : Option (List Nat)) (e cnt : Nat),
      d.bitptr < d.frame_size → d.last_uw < d.frame_size →
      ((deframeLoop d c2 po vo e cnt l).1.bitptr < d.frame_size ∧
       (deframeLoop d c2 po vo e cnt l).1.last_uw < d.frame_size ∧
       (deframeLoop d c2 po vo e cnt l).1.ftype = d.ftype ∧
       (deframeLoop d c2 po vo e cnt l).1.frame_size = d.frame_size) := by
  induction l with
  | nil => intro d c2 po vo e cnt hp hl; exact ⟨hp, hl, rfl, rfl⟩
  | cons b rest ih =>
      intro d c2 po vo e cnt hp hl
      rw [deframeLoop]
      obtain ⟨hft, hfs, hbp⟩ := deframeStep_fields d c2 po vo e cnt b
      have hlu := deframeStep_last_uw_lt d c2 po vo e cnt b hl
      have hbp2 : (deframeStep d c2 po vo e cnt b).1.bitptr <
          (deframeStep d c2 po vo e cnt b).1.frame_size := by
        rw [hbp, hfs]
        split_ifs <;> omega
      have hlu2 : (deframeStep d c2 po vo e cnt b).1.last_uw <
          (deframeStep d c2 po vo e cnt b).1.frame_size := by
        rw [hfs]
        exact hlu
      obtain ⟨i1, i2, i3, i4⟩ := ih (deframeStep d c2 po vo e cnt b).1
        (deframeStep d c2 po vo e cnt b).2.1
        (deframeStep d c2 po vo e cnt b).2.2.1
        (deframeStep d c2 po vo e cnt b).2.2.2.1
        (deframeStep d c2 po vo e cnt b).2.2.2.2.1
        (deframeStep d c2 po vo e cnt b).2.2.2.2.2 hbp2 hlu2
      rw [hfs] at i1 i2
      exact ⟨i1, i2, i3.trans hft, i4.trans hfs⟩

/-- **C8**: (a) a freshly created deframer has its write cursor and
countdown in `[0, frame_size)` with `frame_size = 96`; (b) every
`fvhff_deframe_bits` call preserves both range invariants and the frame
size; (c) each per-bit step advances the stored cursor by exactly 1
modulo `frame_size`. -/
theorem c8_state_range_invariant :
    (∀ d0, fvhff_create_deframer FREEDV_VHF_FRAME_A = some d0 →
       d0.bitptr < d0.frame_size ∧ d0.last_uw < d0.frame_size ∧
       d0.frame_size = 96) ∧
    (∀ (d : Deframer) (c2 : List Nat) (po vo : Option (List Nat))
       (bin : List Nat), d.bitptr < d.frame_size → d.last_uw < d.frame_size →
       ((fvhff_deframe_bits d c2 po vo bin).1.bitptr < d.frame_size ∧
        (fvhff_deframe_bits d c2 po vo bin).1.last_uw < d.frame_size ∧
        (fvhff_deframe_bits d c2 po vo bin).1.frame_size = d.frame_size)) ∧
    (∀ (d : Deframer) (c2 : List Nat) (po vo : Option (List Nat))
       (e cnt b : Nat), d.bitptr < d.frame_size →
       (deframeStep d c2 po vo e cnt b).1.bitptr =
         (d.bitptr + 1) % d.frame_size) := by
  refine ⟨?_, ?_, ?_⟩
  · intro d0 h
    rw [fvhff_create_deframer, if_pos rfl] at h
    cases h
    refine ⟨by decide, by decide, rfl⟩
  · intro d c2 po vo bin hp hl
    rw [fvhff_deframe_bits]
    split_ifs with hf
    · simp only []
      obtain ⟨i1, i2, _, i4⟩ := deframeLoop_invariant
        ((List.range d.frame_size).map (fun i => bin.getD i 0))
        d c2 po vo 0 0 hp hl
      exact ⟨i1, i2, i4⟩
    · exact ⟨hp, hl, rfl⟩
  · intro d c2 po vo e cnt b hp
    obtain ⟨_, _, hbp⟩ := deframeStep_fields d c2 po vo e cnt b
    rw [hbp]
    by_cases hc : d.bitptr + 1 ≥ d.frame_size
    · have heq : d.bitptr + 1 = d.frame_size := by omega
      rw [if_pos hc, heq, Nat.mod_self]
    · rw [if_neg hc, Nat.mod_eq_of_lt (by omega)]

/-- Witness for C8 at the freshly created deframer. -/
theorem c8_state_range_invariant_witness :
    (((fvhff_create_deframer FREEDV_VHF_FRAME_A).getD fallbackDeframer).bitptr <
       ((fvhff_create_deframer FREEDV_VHF_FRAME_A).getD
         fallbackDeframer).frame_size ∧
     ((fvhff_create_deframer FREEDV_VHF_FRAME_A).getD
         fallbackDeframer).last_uw <
       ((fvhff_create_deframer FREEDV_VHF_FRAME_A).getD
         fallbackDeframer).frame_size ∧
     ((fvhff_create_deframer FREEDV_VHF_FRAME_A).getD
         fallbackDeframer).frame_size = 96) ∧
    ((fvhff_deframe_bits
        ((fvhff_create_deframer FREEDV_VHF_FRAME_A).getD fallbackDeframer)
        [] none none (List.replicate 96 1)).1.bitptr <
       ((fvhff_create_deframer FREEDV_VHF_FRAME_A).getD
         fallbackDeframer).frame_size ∧
     (fvhff_deframe_bits
        ((fvhff_create_deframer FREEDV_VHF_FRAME_A).getD fallbackDeframer)
        [] none none (List.replicate 96 1)).1.last_uw <
       ((fvhff_create_deframer FREEDV_VHF_FRAME_A).getD
         fallbackDeframer).frame_size ∧
     (fvhff_deframe_bits
        ((fvhff_create_deframer FREEDV_VHF_FRAME_A).getD fallbackDeframer)
        [] none none (List.replicate 96 1)).1.frame_size =
       ((fvhff_create_deframer FREEDV_VHF_FRAME_A).getD
         fallbackDeframer).frame_size) ∧
    (deframeStep
        ((fvhff_create_deframer FREEDV_VHF_FRAME_A).getD fallbackDeframer)
        [] none none 0 0 1).1.bitptr =
      (((fvhff_create_deframer FREEDV_VHF_FRAME_A).getD
          fallbackDeframer).bitptr + 1) %
        ((fvhff_create_deframer FREEDV_VHF_FRAME_A).getD
          fallbackDeframer).frame_size :=
  ⟨c8_state_range_invariant.1
     ((fvhff_create_deframer FREEDV_VHF_FRAME_A).getD fallbackDeframer) rfl,
   c8_state_range_invariant.2.1
     ((fvhff_create_deframer FREEDV_VHF_FRAME_A).getD fallbackDeframer)
     [] none none (List.replicate 96 1) (by decide) (by decide),
   c8_state_range_invariant.2.2
     ((fvhff_create_deframer FREEDV_VHF_FRAME_A).getD fallbackDeframer)
     [] none none 0 0 1 (by decide)⟩

/-! ## Pointwise characterization of the frame assembler -/

theorem fillRange_length (n : Nat) :
    ∀ (out : List Nat) (start : Nat) (f : Nat → Nat) (ibit : Nat),
      (fillRange out start n f ibit).length = out.length := by
  induction n with
  | zero => intro out start f ibit; rfl
  | succ m ih =>
      intro out start f ibit
      show (fillRange (out.set start (f ibit)) (start + 1) m f (ibit + 1)).length
          = out.length
      rw [ih]
      simp

theorem fillRange_getD (n : Nat) :
    ∀ (out : List Nat) (start : Nat) (f : Nat → Nat) (ibit j : Nat),
      start + n ≤ out.length → j < out.length →
      (fillRange out start n f ibit).getD j 0 =
        if start ≤ j ∧ j < start + n then f (ibit + (j - start))
        else out.getD j 0 := by
  induction n with
  | zero =>
      intro out start f ibit j _ _
      show out.getD j 0 = _
      rw [if_neg (by omega)]
  | succ m ih =>
      intro out start f ibit j hlen hj
      show (fillRange (out.set start (f ibit)) (start + 1) m f (ibit + 1)).getD
          j 0 = _
      rw [ih _ _ _ _ _ (by simp; omega) (by simp; omega)]
      rw [getD_set_of_lt out start j (f ibit) hj]
      split_ifs <;> first
        | rfl
        | omega
        | (congr 1; omega)

theorem frame_bits_proto_getD (c2 p : List Nat) (vo : Option (List Nat))
    (j : Nat) (hj : j < 96) :
    ((fvhff_frame_bits FREEDV_VHF_FRAME_A c2 (some p) vo).getD []).getD j 0 =
      if 56 ≤ j ∧ j < 56 + 28 then UNPACK_BIT_MSBFIRST c2 (24 + (j - 56))
      else if 16 ≤ j ∧ j < 16 + 24 then UNPACK_BIT_MSBFIRST c2 (j - 16)
      else if 84 ≤ j ∧ j < 84 + 8 then UNPACK_BIT_MSBFIRST p (12 + (j - 84))
      else if 4 ≤ j ∧ j < 4 + 12 then UNPACK_BIT_MSBFIRST p (j - 4)
      else A_blank.getD j 0 := by
  have hAb : A_blank.length = 96 := by decide
  rw [fvhff_frame_bits, if_pos rfl]
  rcases vo with _ | v
  · simp only [Option.getD_some]
    have hlY : A_blank.length = 96 := by simp [hAb]
    have hl1 : (fillRange A_blank 4 12 (UNPACK_BIT_MSBFIRST p) 0).length = 96
      := (fillRange_length 12 A_blank 4 (UNPACK_BIT_MSBFIRST p) 0).trans hlY
    have hl2 :
      (fillRange (fillRange A_blank 4 12 (UNPACK_BIT_MSBFIRST p) 0) 84 8 (UNPACK_BIT_MSBFIRST p) 12).length
      = 96 :=
      (fillRange_length 8 (fillRange A_blank 4 12 (UNPACK_BIT_MSBFIRST p) 0) 84 (UNPACK_BIT_MSBFIRST p) 12).trans
      hl1
    have hl3 :
      (fillRange (fillRange (fillRange A_blank 4 12 (UNPACK_BIT_MSBFIRST p) 0) 84 8 (UNPACK_BIT_MSBFIRST p) 12) 16 24 (UNPACK_BIT_MSBFIRST c2) 0).length
      = 96 :=
      (fillRange_length 24 (fillRange (fillRange A_blank 4 12 (UNPACK_BIT_MSBFIRST p) 0) 84 8 (UNPACK_BIT_MSBFIRST p) 12) 16 (UNPACK_BIT_MSBFIRST c2) 0).trans
      hl2
    have H1 := fillRange_getD 12 A_blank 4 (UNPACK_BIT_MSBFIRST p) 0 j
      (by omega) (by omega)
    have H2 := fillRange_getD 8
      (fillRange A_blank 4 12 (UNPACK_BIT_MSBFIRST p) 0) 84
      (UNPACK_BIT_MSBFIRST p) 12 j (by omega) (by omega)
    have H3 := fillRange_getD 24
      (fillRange (fillRange A_blank 4 12 (UNPACK_BIT_MSBFIRST p) 0) 84 8 (UNPACK_BIT_MSBFIRST p) 12)
      16 (UNPACK_BIT_MSBFIRST c2) 0 j (by omega) (by omega)
    have H4 := fillRange_getD 28
      (fillRange (fillRange (fillRange A_blank 4 12 (UNPACK_BIT_MSBFIRST p) 0) 84 8 (UNPACK_BIT_MSBFIRST p) 12) 16 24 (UNPACK_BIT_MSBFIRST c2) 0)
      56 (UNPACK_BIT_MSBFIRST c2) 24 j (by omega) (by omega)
    show
      (fillRange (fillRange (fillRange (fillRange A_blank 4 12 (UNPACK_BIT_MSBFIRST p) 0) 84 8 (UNPACK_BIT_MSBFIRST p) 12) 16 24 (UNPACK_BIT_MSBFIRST c2) 0) 56 28 (UNPACK_BIT_MSBFIRST c2) 24).getD
      j 0 = _
    simp only [Nat.zero_add] at H1 H3
    try rw [H4]
    try rw [H3]
    try rw [H2]
    try rw [H1]
    try (split_ifs <;> first
      | rfl
      | (exfalso ; omega))
  · simp only [Option.getD_some]
    have hlY : ((A_blank.set 90 (v.getD 0 0)).set 91 (v.getD 1 0)).length = 96
      := by simp [hAb]
    have hl1 :
      (fillRange ((A_blank.set 90 (v.getD 0 0)).set 91 (v.getD 1 0)) 4 12 (UNPACK_BIT_MSBFIRST p) 0).length
      = 96 :=
      (fillRange_length 12 ((A_blank.set 90 (v.getD 0 0)).set 91 (v.getD 1 0)) 4 (UNPACK_BIT_MSBFIRST p) 0).trans
      hlY
    have hl2 :
      (fillRange (fillRange ((A_blank.set 90 (v.getD 0 0)).set 91 (v.getD 1 0)) 4 12 (UNPACK_BIT_MSBFIRST p) 0) 84 8 (UNPACK_BIT_MSBFIRST p) 12).length
      = 96 :=
      (fillRange_length 8 (fillRange ((A_blank.set 90 (v.getD 0 0)).set 91 (v.getD 1 0)) 4 12 (UNPACK_BIT_MSBFIRST p) 0) 84 (UNPACK_BIT_MSBFIRST p) 12).trans
      hl1
    have hl3 :
      (fillRange (fillRange (fillRange ((A_blank.set 90 (v.getD 0 0)).set 91 (v.getD 1 0)) 4 12 (UNPACK_BIT_MSBFIRST p) 0) 84 8 (UNPACK_BIT_MSBFIRST p) 12) 16 24 (UNPACK_BIT_MSBFIRST c2) 0).length
      = 96 :=
      (fillRange_length 24 (fillRange (fillRange ((A_blank.set 90 (v.getD 0 0)).set 91 (v.getD 1 0)) 4 12 (UNPACK_BIT_MSBFIRST p) 0) 84 8 (UNPACK_BIT_MSBFIRST p) 12) 16 (UNPACK_BIT_MSBFIRST c2) 0).trans
      hl2
    have H1 := fillRange_getD 12
      ((A_blank.set 90 (v.getD 0 0)).set 91 (v.getD 1 0)) 4
      (UNPACK_BIT_MSBFIRST p) 0 j (by omega) (by omega)
    have H2 := fillRange_getD 8
      (fillRange ((A_blank.set 90 (v.getD 0 0)).set 91 (v.getD 1 0)) 4 12 (UNPACK_BIT_MSBFIRST p) 0)
      84 (UNPACK_BIT_MSBFIRST p) 12 j (by omega) (by omega)
    have H3 := fillRange_getD 24
      (fillRange (fillRange ((A_blank.set 90 (v.getD 0 0)).set 91 (v.getD 1 0)) 4 12 (UNPACK_BIT_MSBFIRST p) 0) 84 8 (UNPACK_BIT_MSBFIRST p) 12)
      16 (UNPACK_BIT_MSBFIRST c2) 0 j (by omega) (by omega)
    have H4 := fillRange_getD 28
      (fillRange (fillRange (fillRange ((A_blank.set 90 (v.getD 0 0)).set 91 (v.getD 1 0)) 4 12 (UNPACK_BIT_MSBFIRST p) 0) 84 8 (UNPACK_BIT_MSBFIRST p) 12) 16 24 (UNPACK_BIT_MSBFIRST c2) 0)
      56 (UNPACK_BIT_MSBFIRST c2) 24 j (by omega) (by omega)
    have HS1 := getD_set_of_lt (A_blank.set 90 (v.getD 0 0)) 91 j (v.getD 1 0)
      (by simp [hAb] ; omega)
    have HS0 := getD_set_of_lt A_blank 90 j (v.getD 0 0) (by omega)
    show
      (fillRange (fillRange (fillRange (fillRange ((A_blank.set 90 (v.getD 0 0)).set 91 (v.getD 1 0)) 4 12 (UNPACK_BIT_MSBFIRST p) 0) 84 8 (UNPACK_BIT_MSBFIRST p) 12) 16 24 (UNPACK_BIT_MSBFIRST c2) 0) 56 28 (UNPACK_BIT_MSBFIRST c2) 24).getD
      j 0 = _
    simp only [Nat.zero_add] at H1 H3
    try rw [H4]
    try rw [H3]
    try rw [H2]
    try rw [H1]
    try rw [HS1]
    try rw [HS0]
    try (split_ifs <;> first
      | rfl
      | (exfalso ; omega))

theorem frame_bits_noproto_getD (c2 : List Nat) (vo : Option (List Nat))
    (j : Nat) (hj : j < 96) :
    ((fvhff_frame_bits FREEDV_VHF_FRAME_A c2 none vo).getD []).getD j 0 =
      if 56 ≤ j ∧ j < 56 + 28 then UNPACK_BIT_MSBFIRST c2 (24 + (j - 56))
      else if 16 ≤ j ∧ j < 16 + 24 then UNPACK_BIT_MSBFIRST c2 (j - 16)
      else if j = 90 then (match vo with
        | some v => v.getD 0 0
        | none => A_blank.getD j 0)
      else if j = 91 then (match vo with
        | some v => v.getD 1 0
        | none => A_blank.getD j 0)
      else A_blank.getD j 0 := by
  have hAb : A_blank.length = 96 := by decide
  rw [fvhff_frame_bits, if_pos rfl]
  rcases vo with _ | v
  · simp only [Option.getD_some]
    have hlY : A_blank.length = 96 := by simp [hAb]
    have hl3 : (fillRange A_blank 16 24 (UNPACK_BIT_MSBFIRST c2) 0).length =
      96 := (fillRange_length 24 A_blank 16 (UNPACK_BIT_MSBFIRST c2) 0).trans
      hlY
    have H3 := fillRange_getD 24 A_blank 16 (UNPACK_BIT_MSBFIRST c2) 0 j
      (by omega) (by omega)
    have H4 := fillRange_getD 28
      (fillRange A_blank 16 24 (UNPACK_BIT_MSBFIRST c2) 0) 56
      (UNPACK_BIT_MSBFIRST c2) 24 j (by omega) (by omega)
    show
      (fillRange (fillRange A_blank 16 24 (UNPACK_BIT_MSBFIRST c2) 0) 56 28 (UNPACK_BIT_MSBFIRST c2) 24).getD
      j 0 = _
    simp only [Nat.zero_add] at H3
    try rw [H4]
    try rw [H3]
    try (split_ifs <;> first
      | rfl
      | (exfalso ; omega))
  · simp only [Option.getD_some]
    have hlY : ((A_blank.set 90 (v.getD 0 0)).set 91 (v.getD 1 0)).length = 96
      := by simp [hAb]
    have hl3 :
      (fillRange ((A_blank.set 90 (v.getD 0 0)).set 91 (v.getD 1 0)) 16 24 (UNPACK_BIT_MSBFIRST c2) 0).length
      = 96 :=
      (fillRange_length 24 ((A_blank.set 90 (v.getD 0 0)).set 91 (v.getD 1 0)) 16 (UNPACK_BIT_MSBFIRST c2) 0).trans
      hlY
    have H3 := fillRange_getD 24
      ((A_blank.set 90 (v.getD 0 0)).set 91 (v.getD 1 0)) 16
      (UNPACK_BIT_MSBFIRST c2) 0 j (by omega) (by omega)
    have H4 := fillRange_getD 28
      (fillRange ((A_blank.set 90 (v.getD 0 0)).set 91 (v.getD 1 0)) 16 24 (UNPACK_BIT_MSBFIRST c2) 0)
      56 (UNPACK_BIT_MSBFIRST c2) 24 j (by omega) (by omega)
    have HS1 := getD_set_of_lt (A_blank.set 90 (v.getD 0 0)) 91 j (v.getD 1 0)
      (by simp [hAb] ; omega)
    have HS0 := getD_set_of_lt A_blank 90 j (v.getD 0 0) (by omega)
    show
      (fillRange (fillRange ((A_blank.set 90 (v.getD 0 0)).set 91 (v.getD 1 0)) 16 24 (UNPACK_BIT_MSBFIRST c2) 0) 56 28 (UNPACK_BIT_MSBFIRST c2) 24).getD
      j 0 = _
    simp only [Nat.zero_add] at H3
    try rw [H4]
    try rw [H3]
    try rw [HS1]
    try rw [HS0]
    try (split_ifs <;> first
      | rfl
      | (exfalso ; omega))

/-! ## Bit-level characterization of `packRange` -/

theorem testBit_one_succ (k : Nat) : Nat.testBit 1 (k + 1) = false := by
  rw [Nat.testBit_add_one]
  simp

theorem packRange_length (bits : List Nat) (fs : Nat) (n : Nat) :
    ∀ (ibit iframe : Nat) (out : List Nat),
      (packRange bits fs n ibit iframe out).length = out.length := by
  induction n with
  | zero => intro _ _ _; rfl
  | succ m ih =>
      intro ibit iframe out
      simp only [packRange]
      rw [ih]
      simp

/-- Bit `i` of output byte `j` after `packRange bits fs n ibit iframe out`:
bit position `g = 8*j + (7-i)` of the MSB-first packing is OR-ed with ring
bit `(iframe + (g - ibit)) % fs` exactly when `ibit ≤ g < ibit + n`
(and `i < 8`); all other bits keep the value they had in `out`. -/
theorem packRange_testBit (bits : List Nat) (fs : Nat) (n : Nat) :
    ∀ (ibit iframe : Nat) (out : List Nat) (j i : Nat),
      iframe < fs → j < out.length →
      Nat.testBit ((packRange bits fs n ibit iframe out).getD j 0) i =
        (Nat.testBit (out.getD j 0) i ||
          (decide (i < 8) && decide (ibit ≤ 8 * j + (7 - i)) &&
           decide (8 * j + (7 - i) < ibit + n) &&
           Nat.testBit
             (bits.getD ((iframe + (8 * j + (7 - i) - ibit)) % fs) 0) 0)) := by
  induction n with
  | zero =>
      intro ibit iframe out j i _ _
      show Nat.testBit (out.getD j 0) i = _
      rcases Nat.lt_or_ge (8 * j + (7 - i)) ibit with h | h
      · rw [decide_eq_false (by omega : ¬ ibit ≤ 8 * j + (7 - i))]
        simp
      · rw [decide_eq_false (by omega : ¬ 8 * j + (7 - i) < ibit + 0)]
        simp
  | succ m ih =>
      intro ibit iframe out j i hif hj
      have hfs : 0 < fs := by omega
      have hwrap : (if iframe + 1 ≥ fs then 0 else iframe + 1) =
          (iframe + 1) % fs := by
        rcases Nat.lt_or_ge (iframe + 1) fs with h | h
        · rw [if_neg (by omega), Nat.mod_eq_of_lt h]
        · have h2 : iframe + 1 = fs := by omega
          rw [if_pos (by omega), h2, Nat.mod_self]
      simp only [packRange]
      rw [hwrap]
      rw [ih (ibit + 1) ((iframe + 1) % fs)
        (out.set (ibit >>> 3) (out.getD (ibit >>> 3) 0 |||
          ((bits.getD iframe 0 &&& 1) <<< (7 - (ibit &&& 7)))))
        j i (Nat.mod_lt _ hfs) (by simp [hj])]
      rw [getD_set_of_lt out (ibit >>> 3) j _ hj]
      have hdiv : ibit >>> 3 = ibit / 8 := by
        rw [Nat.shiftRight_eq_div_pow]
      have hmod : ibit &&& 7 = ibit % 8 := by
        have h7 := Nat.and_pow_two_sub_one_eq_mod ibit 3
        norm_num at h7
        exact h7
      rw [hdiv, hmod]
      have hmd : ibit % 8 + 8 * (ibit / 8) = ibit := Nat.mod_add_div ibit 8
      have hm8 : ibit % 8 < 8 := Nat.mod_lt _ (by omega)
      by_cases hq : ibit / 8 = j
      · rw [if_pos hq, hq]
        rw [Nat.testBit_or]
        by_cases hi8 : i < 8
        · by_cases hgi : 8 * j + (7 - i) = ibit
          · have hs : 7 - ibit % 8 = i := by omega
            rw [hs, Nat.testBit_shiftLeft, decide_eq_true (Nat.le_refl i),
              Nat.sub_self, Nat.testBit_and]
            rw [decide_eq_false (by omega : ¬ (ibit + 1 ≤ 8 * j + (7 - i)))]
            rw [decide_eq_true hi8,
              decide_eq_true (by omega : ibit ≤ 8 * j + (7 - i)),
              decide_eq_true (by omega : 8 * j + (7 - i) < ibit + (m + 1))]
            have hzero : 8 * j + (7 - i) - ibit = 0 := by omega
            have hiz : (iframe + (8 * j + (7 - i) - ibit)) % fs = iframe := by
              rw [hzero, Nat.add_zero]
              exact Nat.mod_eq_of_lt hif
            rw [hiz]
            simp
          · have hvi : Nat.testBit
                ((bits.getD iframe 0 &&& 1) <<< (7 - ibit % 8)) i = false := by
              rw [Nat.testBit_shiftLeft]
              rcases Nat.lt_or_ge i (7 - ibit % 8) with hlt | hge
              · rw [decide_eq_false (by omega : ¬ i ≥ 7 - ibit % 8)]
                simp
              · obtain ⟨k, hk⟩ : ∃ k, i - (7 - ibit % 8) = k + 1 :=
                  ⟨i - (7 - ibit % 8) - 1, by omega⟩
                rw [hk, Nat.testBit_and, testBit_one_succ]
                simp
            rw [hvi]
            by_cases hle : ibit ≤ 8 * j + (7 - i)
            · rw [decide_eq_true (by omega : ibit + 1 ≤ 8 * j + (7 - i)),
                decide_eq_true hle]
              by_cases hlt2 : 8 * j + (7 - i) < ibit + (m + 1)
              · rw [decide_eq_true
                    (by omega : 8 * j + (7 - i) < ibit + 1 + m),
                  decide_eq_true hlt2]
                have hidx2 : ((iframe + 1) % fs +
                    (8 * j + (7 - i) - (ibit + 1))) % fs =
                    (iframe + (8 * j + (7 - i) - ibit)) % fs := by
                  rw [Nat.mod_add_mod]
                  congr 1
                  omega
                rw [hidx2]
                simp
              · rw [decide_eq_false
                    (by omega : ¬ 8 * j + (7 - i) < ibit + 1 + m),
                  decide_eq_false hlt2]
                simp
            · rw [decide_eq_false (by omega : ¬ ibit + 1 ≤ 8 * j + (7 - i)),
                decide_eq_false hle]
              simp
        · have hvi : Nat.testBit
              ((bits.getD iframe 0 &&& 1) <<< (7 - ibit % 8)) i = false := by
            rw [Nat.testBit_shiftLeft]
            obtain ⟨k, hk⟩ : ∃ k, i - (7 - ibit % 8) = k + 1 :=
              ⟨i - (7 - ibit % 8) - 1, by omega⟩
            rw [hk, Nat.testBit_and, testBit_one_succ]
            simp
          rw [hvi, decide_eq_false hi8]
          simp
      · rw [if_neg hq]
        by_cases hi8 : i < 8
        · by_cases hle : ibit ≤ 8 * j + (7 - i)
          · by_cases hgi : 8 * j + (7 - i) = ibit
            · exfalso
              apply hq
              omega
            · rw [decide_eq_true (by omega : ibit + 1 ≤ 8 * j + (7 - i)),
                decide_eq_true hle]
              by_cases hlt2 : 8 * j + (7 - i) < ibit + (m + 1)
              · rw [decide_eq_true
                    (by omega : 8 * j + (7 - i) < ibit + 1 + m),
                  decide_eq_true hlt2]
                have hidx2 : ((iframe + 1) % fs +
                    (8 * j + (7 - i) - (ibit + 1))) % fs =
                    (iframe + (8 * j + (7 - i) - ibit)) % fs := by
                  rw [Nat.mod_add_mod]
                  congr 1
                  omega
                rw [hidx2]
              · rw [decide_eq_false
                    (by omega : ¬ 8 * j + (7 - i) < ibit + 1 + m),
                  decide_eq_false hlt2]
                simp
          · rw [decide_eq_false (by omega : ¬ ibit + 1 ≤ 8 * j + (7 - i)),
              decide_eq_false hle]
            simp
        · rw [decide_eq_false hi8]
          simp

theorem wrapStart_lt (bitptr off fs : Nat) (hb : bitptr < fs)
    (ho : off < fs) : wrapStart bitptr off fs < fs := by
  simp only [wrapStart]
  split_ifs <;> omega

/-- **C6**: protocol-over-side-channel write precedence: when both
`proto_in` and `vc_in` are supplied to `fvhff_frame_bits` for a type A
frame, output bits 90 and 91 hold protocol bits 18 and 19 (MSB-first
from `proto_in`), whatever `vc_in` holds. -/
theorem c6_proto_precedence (c2 p v : List Nat) :
    ((fvhff_frame_bits FREEDV_VHF_FRAME_A c2 (some p) (some v)).getD
        []).getD 90 0 = UNPACK_BIT_MSBFIRST p 18 ∧
    ((fvhff_frame_bits FREEDV_VHF_FRAME_A c2 (some p) (some v)).getD
        []).getD 91 0 = UNPACK_BIT_MSBFIRST p 19 := by
  constructor
  · have h := frame_bits_proto_getD c2 p (some v) 90 (by omega)
    rw [h]
    norm_num
  · have h := frame_bits_proto_getD c2 p (some v) 91 (by omega)
    rw [h]
    norm_num

/-- **C2**: refuted — the second side-channel read is NOT wrapped.  At
write cursor 5 the two side-channel ring positions named by the claim are
`(5+90) % 96 = 95` and `(5+90+1) % 96 = 0`, but `fvhff_extract_frame`
increments the ring index from 95 to 96 without a wrap check and reads
`bits[96]`, one past the 96-entry ring (an out-of-bounds read in the C
code, rendered as the `getD` default 0 in the model).  With ring slot 0
holding 1, the claimed wrapped read would return 1, yet the extracted
second side-channel bit is the out-of-bounds 0. -/
theorem c2_oob_second_side_channel_read :
    (fvhff_extract_frame
        { bits := (List.replicate 96 0).set 0 1,
          ftype := FREEDV_VHF_FRAME_A, state := ST_SYNC, bitptr := 5,
          last_uw := 0, miss_cnt := 0, frame_size := 96 }
        (List.replicate 7 0) none (some [7, 7])).2.2 = some [0, 0] ∧
    wrapStart 5 90 96 + 1 = 96 ∧
    ((List.replicate 96 0).set 0 1).getD ((5 + 90 + 1) % 96) 0 = 1 := by
  decide

/-- **C10**: whenever `fvhff_extract_frame` runs for a type A deframer
(`proto_out` and `vc_out` supplied or not), the four low-order bits of
the last payload byte `codec2_out[6]` are zero, and whenever `proto_out`
is supplied the four low-order bits of the last protocol byte
`proto_out[2]` are zero: the outputs are cleared and only bit positions
below 52 resp. 20 are ever set. -/
theorem c10_padding_bits_zero (d : Deframer) (c2 : List Nat)
    (po vo : Option (List Nat)) (hf : d.ftype = FREEDV_VHF_FRAME_A)
    (hfs : d.frame_size = 96) (hp : d.bitptr < 96)
    (hc2 : c2.length = 7) :
    ∀ i, i < 4 →
      Nat.testBit
        ((fvhff_extract_frame d c2 po vo).1.getD 6 0) i = false ∧
      ∀ proto, po = some proto → proto.length = 3 →
        Nat.testBit
          (((fvhff_extract_frame d c2 po vo).2.1.getD []).getD 2 0) i
          = false := by
  intro i hi
  have hw16 : wrapStart d.bitptr 16 96 < 96 :=
    wrapStart_lt _ _ _ hp (by omega)
  have hw56 : wrapStart d.bitptr 56 96 < 96 :=
    wrapStart_lt _ _ _ hp (by omega)
  have hw4 : wrapStart d.bitptr 4 96 < 96 :=
    wrapStart_lt _ _ _ hp (by omega)
  have hw84 : wrapStart d.bitptr 84 96 < 96 :=
    wrapStart_lt _ _ _ hp (by omega)
  have hdropc : c2.drop 7 = [] := List.drop_eq_nil_of_le (by omega)
  constructor
  · have hC : (fvhff_extract_frame d c2 po vo).1 =
        packRange d.bits d.frame_size 28 24
          (wrapStart d.bitptr 56 d.frame_size)
          (packRange d.bits d.frame_size 24 0
            (wrapStart d.bitptr 16 d.frame_size)
            (List.replicate 7 0 ++ c2.drop 7)) := by
      rw [fvhff_extract_frame.eq_def, if_pos hf]
    rw [hC, hfs, hdropc, List.append_nil]
    have hl1 : 6 < (packRange d.bits 96 24 0 (wrapStart d.bitptr 16 96)
        (List.replicate 7 0)).length := by
      rw [packRange_length]
      decide
    have h2 := packRange_testBit d.bits 96 28 24 (wrapStart d.bitptr 56 96)
      (packRange d.bits 96 24 0 (wrapStart d.bitptr 16 96)
        (List.replicate 7 0)) 6 i hw56 hl1
    have h1 := packRange_testBit d.bits 96 24 0 (wrapStart d.bitptr 16 96)
      (List.replicate 7 0) 6 i hw16 (by decide)
    rw [h2, h1]
    rw [decide_eq_false (by omega : ¬ 8 * 6 + (7 - i) < 0 + 24),
      decide_eq_false (by omega : ¬ 8 * 6 + (7 - i) < 24 + 28)]
    have hb : (List.replicate 7 0 : List Nat).getD 6 0 = 0 := rfl
    rw [hb]
    simp
  · intro proto hpo hproto
    subst hpo
    have hP : (fvhff_extract_frame d c2 (some proto) vo).2.1 =
        some (packRange d.bits d.frame_size 8 12
          (wrapStart d.bitptr 84 d.frame_size)
          (packRange d.bits d.frame_size 12 0
            (wrapStart d.bitptr 4 d.frame_size)
            (List.replicate 3 0 ++ proto.drop 3))) := by
      rw [fvhff_extract_frame.eq_def, if_pos hf]
    have hdropp : proto.drop 3 = [] := List.drop_eq_nil_of_le (by omega)
    rw [hP, Option.getD_some, hfs, hdropp, List.append_nil]
    have hl1 : 2 < (packRange d.bits 96 12 0 (wrapStart d.bitptr 4 96)
        (List.replicate 3 0)).length := by
      rw [packRange_length]
      decide
    have h2 := packRange_testBit d.bits 96 8 12 (wrapStart d.bitptr 84 96)
      (packRange d.bits 96 12 0 (wrapStart d.bitptr 4 96)
        (List.replicate 3 0)) 2 i hw84 hl1
    have h1 := packRange_testBit d.bits 96 12 0 (wrapStart d.bitptr 4 96)
      (List.replicate 3 0) 2 i hw4 (by decide)
    rw [h2, h1]
    rw [decide_eq_false (by omega : ¬ 8 * 2 + (7 - i) < 0 + 12),
      decide_eq_false (by omega : ¬ 8 * 2 + (7 - i) < 12 + 8)]
    have hb : (List.replicate 3 0 : List Nat).getD 2 0 = 0 := rfl
    rw [hb]
    simp

/-- Witness for C10 at a freshly created deframer, exercising both a
NULL and a supplied `proto_out`. -/
theorem c10_padding_bits_zero_witness :
    Nat.testBit
      ((fvhff_extract_frame
          ((fvhff_create_deframer FREEDV_VHF_FRAME_A).getD fallbackDeframer)
          (List.replicate 7 0) none none).1.getD 6 0) 0 = false ∧
    Nat.testBit
      ((fvhff_extract_frame
          ((fvhff_create_deframer FREEDV_VHF_FRAME_A).getD fallbackDeframer)
          (List.replicate 7 0) (some (List.replicate 3 0)) none).1.getD 6 0)
      0 = false ∧
    Nat.testBit
      (((fvhff_extract_frame
          ((fvhff_create_deframer FREEDV_VHF_FRAME_A).getD fallbackDeframer)
          (List.replicate 7 0) (some (List.replicate 3 0))
          none).2.1.getD []).getD 2 0) 0 = false :=
  ⟨(c10_padding_bits_zero
      ((fvhff_create_deframer FREEDV_VHF_FRAME_A).getD fallbackDeframer)
      (List.replicate 7 0) none none (by decide) (by decide) (by decide)
      (by decide) 0 (by decide)).1,
   (c10_padding_bits_zero
      ((fvhff_create_deframer FREEDV_VHF_FRAME_A).getD fallbackDeframer)
      (List.replicate 7 0) (some (List.replicate 3 0)) none (by decide)
      (by decide) (by decide) (by decide) 0 (by decide)).1,
   (c10_padding_bits_zero
      ((fvhff_create_deframer FREEDV_VHF_FRAME_A).getD fallbackDeframer)
      (List.replicate 7 0) (some (List.replicate 3 0)) none (by decide)
      (by decide) (by decide) (by decide) 0 (by decide)).2
     (List.replicate 3 0) rfl (by decide)⟩

/-- **C7** (counterexample): with `proto_in` absent but `vc_in` present,
frame bit 90 does NOT keep the template default: the side-channel write
sets it.  Here `vc_in = [0,0]` gives bit 90 = 0 while `A_blank` has 1. -/
theorem c7_counterexample :
    ((fvhff_frame_bits FREEDV_VHF_FRAME_A (List.replicate 7 0) none
        (some [0, 0])).getD []).getD 90 0 = 0 ∧
    A_blank.getD 90 0 = 1 := by
  decide

/-- **C7** (amended): for every type A `fvhff_frame_bits` call
(a) the padding bits 0..3 and 92..95 and the UW bits 40..55 always equal
the `A_blank` template; (b) when `proto_in` is absent, bits 4..15 and
84..89 keep the template; (c) when `proto_in` and `vc_in` are BOTH
absent, bits 90..91 also keep the template.  (Bits 90..91 do not keep
the template when `vc_in` alone is supplied.) -/
theorem c7_unwritten_bits_default (c2 : List Nat)
    (po vo : Option (List Nat)) :
    (∀ j, j < 96 → (j < 4 ∨ (40 ≤ j ∧ j < 56) ∨ 92 ≤ j) →
      ((fvhff_frame_bits FREEDV_VHF_FRAME_A c2 po vo).getD []).getD j 0 =
        A_blank.getD j 0) ∧
    (po = none → ∀ j, j < 96 → ((4 ≤ j ∧ j < 16) ∨ (84 ≤ j ∧ j < 90)) →
      ((fvhff_frame_bits FREEDV_VHF_FRAME_A c2 po vo).getD []).getD j 0 =
        A_blank.getD j 0) ∧
    (po = none → vo = none → ∀ j, (j = 90 ∨ j = 91) →
      ((fvhff_frame_bits FREEDV_VHF_FRAME_A c2 po vo).getD []).getD j 0 =
        A_blank.getD j 0) := by
  refine ⟨?_, ?_, ?_⟩
  · intro j hj hpos
    rcases po with _ | p
    · rw [frame_bits_noproto_getD c2 vo j hj]
      split_ifs <;> first | rfl | (exfalso ; omega)
    · rw [frame_bits_proto_getD c2 p vo j hj]
      split_ifs <;> first | rfl | (exfalso ; omega)
  · intro hpo j hj hpos
    subst hpo
    rw [frame_bits_noproto_getD c2 vo j hj]
    split_ifs <;> first | rfl | (exfalso ; omega)
  · intro hpo hvo j hpos
    subst hpo
    subst hvo
    have hj : j < 96 := by omega
    rw [frame_bits_noproto_getD c2 none j hj]
    split_ifs <;> first | rfl | (exfalso ; omega)

/-- Witness for the amended C7 at concrete positions 45 (UW), 5
(protocol range, proto absent) and 90 (side channel, both absent). -/
theorem c7_unwritten_bits_default_witness :
    ((fvhff_frame_bits FREEDV_VHF_FRAME_A (List.replicate 7 0) none
        none).getD []).getD 45 0 = A_blank.getD 45 0 ∧
    ((fvhff_frame_bits FREEDV_VHF_FRAME_A (List.replicate 7 0) none
        none).getD []).getD 5 0 = A_blank.getD 5 0 ∧
    ((fvhff_frame_bits FREEDV_VHF_FRAME_A (List.replicate 7 0) none
        none).getD []).getD 90 0 = A_blank.getD 90 0 :=
  ⟨(c7_unwritten_bits_default (List.replicate 7 0) none none).1 45
      (by decide) (by decide),
   (c7_unwritten_bits_default (List.replicate 7 0) none none).2.1 rfl 5
      (by decide) (by decide),
   (c7_unwritten_bits_default (List.replicate 7 0) none none).2.2 rfl rfl 90
      (Or.inl rfl)⟩


/-! ## Flipped unique words and the first-acquisition tolerance -/

theorem flipBits_length (ps : List Nat) :
    ∀ F : List Nat, (flipBits F ps).length = F.length := by
  induction ps with
  | nil => intro F; rfl
  | cons p rest ih =>
      intro F
      show (flipBits (F.set p (1 - F.getD p 0)) rest).length = F.length
      rw [ih]
      simp

theorem flipBits_pair_getD (F : List Nat) (a b j : Nat)
    (hb : b < F.length) (hj : j < F.length) (hab : a ≠ b) :
    (flipBits F [a, b]).getD j 0 =
      if b = j then 1 - F.getD b 0
      else if a = j then 1 - F.getD a 0
      else F.getD j 0 := by
  show ((F.set a (1 - F.getD a 0)).set b
      (1 - (F.set a (1 - F.getD a 0)).getD b 0)).getD j 0 = _
  have h1 : (F.set a (1 - F.getD a 0)).getD b 0 = F.getD b 0 := by
    rw [getD_set_of_lt F a b _ hb, if_neg hab]
  rw [getD_set_of_lt _ b j _ (by simpa using hj), h1,
    getD_set_of_lt F a j _ hj]

theorem flipBits_triple_getD (F : List Nat) (a b c j : Nat)
    (hb : b < F.length) (hc : c < F.length) (hj : j < F.length)
    (hab : a ≠ b) (hac : a ≠ c) (hbc : b ≠ c) :
    (flipBits F [a, b, c]).getD j 0 =
      if c = j then 1 - F.getD c 0
      else if b = j then 1 - F.getD b 0
      else if a = j then 1 - F.getD a 0
      else F.getD j 0 := by
  show (((F.set a (1 - F.getD a 0)).set b
      (1 - (F.set a (1 - F.getD a 0)).getD b 0)).set c
      (1 - ((F.set a (1 - F.getD a 0)).set b
        (1 - (F.set a (1 - F.getD a 0)).getD b 0)).getD c 0)).getD j 0 = _
  have h1 : (F.set a (1 - F.getD a 0)).getD b 0 = F.getD b 0 := by
    rw [getD_set_of_lt F a b _ hb, if_neg hab]
  have h2 : ((F.set a (1 - F.getD a 0)).set b
      (1 - (F.set a (1 - F.getD a 0)).getD b 0)).getD c 0 = F.getD c 0 := by
    rw [getD_set_of_lt _ b c _ (by simpa using hc), if_neg hbc,
      getD_set_of_lt F a c _ hc, if_neg hac]
  rw [getD_set_of_lt _ c j _ (by simpa using hj), h2,
    getD_set_of_lt _ b j _ (by simpa using hj), h1,
    getD_set_of_lt F a j _ hj]

theorem sum_indicator_pair (x y n : Nat) (hx : x < n) (hy : y < n)
    (hxy : x ≠ y) :
    (∑ k ∈ Finset.range n, if k = x ∨ k = y then 1 else 0) = 2 := by
  have hsplit : ∀ k ∈ Finset.range n,
      (if k = x ∨ k = y then (1 : Nat) else 0) =
        (if k = x then 1 else 0) + (if k = y then 1 else 0) := by
    intro k _
    by_cases h1 : k = x
    · rw [if_pos (Or.inl h1), if_pos h1, if_neg (by omega)]
    · by_cases h2 : k = y
      · rw [if_pos (Or.inr h2), if_neg h1, if_pos h2]
      · rw [if_neg (by tauto), if_neg h1, if_neg h2]
  rw [Finset.sum_congr rfl hsplit, Finset.sum_add_distrib,
    Finset.sum_ite_eq' (Finset.range n) x (fun _ => 1),
    Finset.sum_ite_eq' (Finset.range n) y (fun _ => 1),
    if_pos (Finset.mem_range.mpr hx), if_pos (Finset.mem_range.mpr hy)]

theorem sum_indicator_triple (x y z n : Nat) (hx : x < n) (hy : y < n)
    (hz : z < n) (hxy : x ≠ y) (hxz : x ≠ z) (hyz : y ≠ z) :
    (∑ k ∈ Finset.range n, if k = x ∨ k = y ∨ k = z then 1 else 0) = 3 := by
  have hsplit : ∀ k ∈ Finset.range n,
      (if k = x ∨ k = y ∨ k = z then (1 : Nat) else 0) =
        ((if k = x then 1 else 0) + (if k = y then 1 else 0)) +
          (if k = z then 1 else 0) := by
    intro k _
    by_cases h1 : k = x
    · rw [if_pos (Or.inl h1), if_pos h1, if_neg (by omega),
        if_neg (by omega)]
    · by_cases h2 : k = y
      · rw [if_pos (Or.inr (Or.inl h2)), if_neg h1, if_pos h2,
          if_neg (by omega)]
      · by_cases h3 : k = z
        · rw [if_pos (Or.inr (Or.inr h3)), if_neg h1, if_neg h2, if_pos h3]
        · rw [if_neg (by tauto), if_neg h1, if_neg h2, if_neg h3]
  rw [Finset.sum_congr rfl hsplit, Finset.sum_add_distrib,
    Finset.sum_add_distrib,
    Finset.sum_ite_eq' (Finset.range n) x (fun _ => 1),
    Finset.sum_ite_eq' (Finset.range n) y (fun _ => 1),
    Finset.sum_ite_eq' (Finset.range n) z (fun _ => 1),
    if_pos (Finset.mem_range.mpr hx), if_pos (Finset.mem_range.mpr hy),
    if_pos (Finset.mem_range.mpr hz)]

theorem getD_replicate_zero (m j : Nat) :
    (List.replicate m 0).getD j 0 = 0 := by
  rcases Nat.lt_or_ge j m with h | h
  · rw [List.getD_eq_getElem _ _ (by simpa using h)]
    simp
  · rw [List.getD_eq_default _ _ (by simpa using h)]

/-- Writing a full 96-bit list into a fresh ring leaves exactly that list
in the ring and the cursor back at 0. -/
theorem writeBits_full_fresh (l : List Nat) (hl : l.length = 96) :
    writeBits 96 (List.replicate 96 0) 0 l = (l, 0) := by
  have h2 : (writeBits 96 (List.replicate 96 0) 0 l).2 = 0 := by
    rw [writeBits_bitptr 96 l _ 0 (by omega) (by omega), hl]
    norm_num
  have h1 : (writeBits 96 (List.replicate 96 0) 0 l).1 = l := by
    apply getD_ext
    · rw [writeBits_length]
      simp [hl]
    · intro j hj
      have hj' : j < 96 := by
        rw [writeBits_length] at hj
        simpa using hj
      have hr := writeBits_getD_rot (List.replicate 96 0) 0 l j (by simp)
        (by omega) hl hj'
      rwa [Nat.zero_add, Nat.mod_eq_of_lt hj'] at hr
  exact Prod.ext_iff.mpr ⟨h1, h2⟩

/-- Writing the first `k+1` bits of a 96-bit list into a fresh ring gives
exactly the intermediate states named by `noEarlyMatch`. -/
theorem writeBits_prefix_fresh (l : List Nat) (k : Nat) (hl : l.length = 96)
    (hk : k < 95) :
    writeBits 96 (List.replicate 96 0) 0 (l.take (k + 1)) =
      (l.take (k + 1) ++ List.replicate (95 - k) 0, k + 1) := by
  have htl : (l.take (k + 1)).length = k + 1 := by
    rw [List.length_take]
    omega
  have h2 : (writeBits 96 (List.replicate 96 0) 0 (l.take (k + 1))).2 =
      k + 1 := by
    rw [writeBits_bitptr 96 (l.take (k + 1)) _ 0 (by omega) (by omega), htl]
    rw [if_neg (by omega)]
    omega
  have h1 : (writeBits 96 (List.replicate 96 0) 0 (l.take (k + 1))).1 =
      l.take (k + 1) ++ List.replicate (95 - k) 0 := by
    apply getD_ext
    · rw [writeBits_length]
      simp [htl]
      omega
    · intro j hj
      have hj' : j < 96 := by
        rw [writeBits_length] at hj
        simpa using hj
      rw [writeBits_getD 96 (l.take (k + 1)) _ 0 (by simp) (by omega)
        (by omega) j hj']
      have hoff : wrapOffset 0 96 j = j := by
        unfold wrapOffset
        split_ifs <;> omega
      rw [hoff, htl]
      by_cases hcase : j < k + 1
      · rw [if_pos hcase, List.getD_append _ _ _ _ (by rw [htl]; omega)]
      · rw [if_neg hcase,
          List.getD_append_right _ _ _ _ (by rw [htl]; omega), htl,
          getD_replicate_zero, getD_replicate_zero]
  exact Prod.ext_iff.mpr ⟨h1, h2⟩

/-- Aligned-UW error sum of a frame with 2 flipped UW bits. -/
theorem flip_pair_sum (F : List Nat) (a b : Nat) (hlen : F.length = 96)
    (hUW : ∀ k, k < 16 → F.getD (40 + k) 0 = A_uw.getD k 0)
    (ha : 40 ≤ a) (hab : a < b) (hb : b ≤ 55) :
    (∑ k ∈ Finset.range 16,
      if (flipBits F [a, b]).getD ((0 + 40 + k) % 96) 0 ≠ A_uw.getD k 0
      then 1 else 0) = 2 := by
  have hA : ∀ m, m < 16 → A_uw.getD m 0 ≤ 1 := by decide
  have hcong : ∀ k ∈ Finset.range 16,
      (if (flipBits F [a, b]).getD ((0 + 40 + k) % 96) 0 ≠ A_uw.getD k 0
       then (1 : Nat) else 0) =
        (if k = a - 40 ∨ k = b - 40 then 1 else 0) := by
    intro k hk
    have hk16 : k < 16 := Finset.mem_range.mp hk
    have hmod : (0 + 40 + k) % 96 = 40 + k := by omega
    rw [hmod]
    have hget := flipBits_pair_getD F a b (40 + k) (by omega) (by omega)
      (by omega)
    rw [hget]
    have hAk := hA k hk16
    by_cases h1 : b = 40 + k
    · rw [if_pos h1]
      have hFb : F.getD b 0 = A_uw.getD k 0 := by
        rw [h1]
        exact hUW k hk16
      rw [hFb, if_pos (by omega), if_pos (Or.inr (by omega))]
    · rw [if_neg h1]
      by_cases h2 : a = 40 + k
      · rw [if_pos h2]
        have hFa : F.getD a 0 = A_uw.getD k 0 := by
          rw [h2]
          exact hUW k hk16
        rw [hFa, if_pos (by omega), if_pos (Or.inl (by omega))]
      · rw [if_neg h2, hUW k hk16, if_neg (by omega), if_neg (by omega)]
  rw [Finset.sum_congr rfl hcong]
  exact sum_indicator_pair (a - 40) (b - 40) 16 (by omega) (by omega)
    (by omega)

/-- Aligned-UW error sum of a frame with 3 flipped UW bits. -/
theorem flip_triple_sum (F : List Nat) (a b c : Nat) (hlen : F.length = 96)
    (hUW : ∀ k, k < 16 → F.getD (40 + k) 0 = A_uw.getD k 0)
    (ha : 40 ≤ a) (hab : a < b) (hbc : b < c) (hc : c ≤ 55) :
    (∑ k ∈ Finset.range 16,
      if (flipBits F [a, b, c]).getD ((0 + 40 + k) % 96) 0 ≠ A_uw.getD k 0
      then 1 else 0) = 3 := by
  have hA : ∀ m, m < 16 → A_uw.getD m 0 ≤ 1 := by decide
  have hcong : ∀ k ∈ Finset.range 16,
      (if (flipBits F [a, b, c]).getD ((0 + 40 + k) % 96) 0 ≠ A_uw.getD k 0
       then (1 : Nat) else 0) =
        (if k = a - 40 ∨ k = b - 40 ∨ k = c - 40 then 1 else 0) := by
    intro k hk
    have hk16 : k < 16 := Finset.mem_range.mp hk
    have hmod : (0 + 40 + k) % 96 = 40 + k := by omega
    rw [hmod]
    have hget := flipBits_triple_getD F a b c (40 + k) (by omega) (by omega)
      (by omega) (by omega) (by omega) (by omega)
    rw [hget]
    have hAk := hA k hk16
    by_cases h1 : c = 40 + k
    · rw [if_pos h1]
      have hFc : F.getD c 0 = A_uw.getD k 0 := by
        rw [h1]
        exact hUW k hk16
      rw [hFc, if_pos (by omega), if_pos (Or.inr (Or.inr (by omega)))]
    · rw [if_neg h1]
      by_cases h2 : b = 40 + k
      · rw [if_pos h2]
        have hFb : F.getD b 0 = A_uw.getD k 0 := by
          rw [h2]
          exact hUW k hk16
        rw [hFb, if_pos (by omega), if_pos (Or.inr (Or.inl (by omega)))]
      · rw [if_neg h2]
        by_cases h3 : a = 40 + k
        · rw [if_pos h3]
          have hFa : F.getD a 0 = A_uw.getD k 0 := by
            rw [h3]
            exact hUW k hk16
          rw [hFa, if_pos (by omega), if_pos (Or.inl (by omega))]
        · rw [if_neg h3, hUW k hk16, if_neg (by omega), if_neg (by omega)]
  rw [Finset.sum_congr rfl hcong]
  exact sum_indicator_triple (a - 40) (b - 40) (c - 40) 16 (by omega)
    (by omega) (by omega) (by omega) (by omega) (by omega)

/-- With 2 UW bits flipped, the aligned unique-word check still passes at
the first-acquisition tolerance. -/
theorem match_aligned_pair (F : List Nat) (a b : Nat) (hlen : F.length = 96)
    (hUW : ∀ k, k < 16 → F.getD (40 + k) 0 = A_uw.getD k 0)
    (ha : 40 ≤ a) (hab : a < b) (hb : b ≤ 55) :
    fvhff_match_uw
      { bits := flipBits F [a, b], ftype := FREEDV_VHF_FRAME_A,
        state := ST_NOSYNC, bitptr := 0, last_uw := 0, miss_cnt := 0,
        frame_size := 96 } uw_first_tol = true := by
  rw [match_uw_char _ _ rfl rfl (by show (0 : Nat) < 96 ; decide)]
  show decide ((∑ k ∈ Finset.range 16,
    if (flipBits F [a, b]).getD ((0 + 40 + k) % 96) 0 ≠ A_uw.getD k 0
    then 1 else 0) ≤ uw_first_tol) = true
  rw [flip_pair_sum F a b hlen hUW ha hab hb]
  decide

/-- With 3 UW bits flipped, the aligned unique-word check fails at the
first-acquisition tolerance. -/
theorem match_aligned_triple (F : List Nat) (a b c : Nat)
    (hlen : F.length = 96)
    (hUW : ∀ k, k < 16 → F.getD (40 + k) 0 = A_uw.getD k 0)
    (ha : 40 ≤ a) (hab : a < b) (hbc : b < c) (hc : c ≤ 55) :
    fvhff_match_uw
      { bits := flipBits F [a, b, c], ftype := FREEDV_VHF_FRAME_A,
        state := ST_NOSYNC, bitptr := 0, last_uw := 0, miss_cnt := 0,
        frame_size := 96 } uw_first_tol = false := by
  rw [match_uw_char _ _ rfl rfl (by show (0 : Nat) < 96 ; decide)]
  show decide ((∑ k ∈ Finset.range 16,
    if (flipBits F [a, b, c]).getD ((0 + 40 + k) % 96) 0 ≠ A_uw.getD k 0
    then 1 else 0) ≤ uw_first_tol) = false
  rw [flip_triple_sum F a b c hlen hUW ha hab hbc hc]
  decide

/-- If the unique-word check at the state reached after the whole batch
has been shifted in succeeds, an unsynchronized deframer ends the batch
synchronized with the extracted flag set (whether or not an earlier,
misaligned check also fired). -/
theorem deframeLoop_nosync_full_match (l : List Nat) :
    ∀ (d : Deframer) (c2 : List Nat) (po vo : Option (List Nat)) (e cnt : Nat),
      ¬ d.state = ST_SYNC → l.length ≤ d.frame_size → l ≠ [] →
      fvhff_match_uw
        { d with bits := (writeBits d.frame_size d.bits d.bitptr l).1,
                 bitptr := (writeBits d.frame_size d.bits d.bitptr l).2 }
        uw_first_tol = true →
      (deframeLoop d c2 po vo e cnt l).1.state = ST_SYNC ∧
      (deframeLoop d c2 po vo e cnt l).2.2.2.2.1 = 1 := by
  induction l with
  | nil =>
      intro d c2 po vo e cnt _ _ hne _
      exact absurd rfl hne
  | cons b rest ih =>
      intro d c2 po vo e cnt hns hlen _ hfull
      simp only [List.length_cons] at hlen
      rw [deframeLoop]
      cases hmatch : fvhff_match_uw
          { d with bits := d.bits.set d.bitptr b,
                   bitptr := if d.bitptr + 1 ≥ d.frame_size then 0
                             else d.bitptr + 1 } uw_first_tol with
      | true =>
          rw [deframeStep_nosync_match d c2 po vo e cnt b hns hmatch]
          have hquiet := deframeLoop_sync_quiet rest
            { d with bits := d.bits.set d.bitptr b,
                     bitptr := if d.bitptr + 1 ≥ d.frame_size then 0
                               else d.bitptr + 1,
                     state := ST_SYNC, last_uw := 0, miss_cnt := 0 }
          simp only []
          rw [hquiet _ _ _ _ _ rfl
            (by show (0 : Nat) + rest.length < d.frame_size; omega)]
          exact ⟨rfl, rfl⟩
      | false =>
          rw [deframeStep_nosync_nomatch d c2 po vo e cnt b hns hmatch]
          rcases rest with _ | ⟨r2, rs⟩
          · exfalso
            rw [writeBits_cons] at hfull
            have hfull2 : fvhff_match_uw
                { d with bits := d.bits.set d.bitptr b,
                         bitptr := if d.bitptr + 1 ≥ d.frame_size then 0
                                   else d.bitptr + 1 } uw_first_tol =
                true := hfull
            exact absurd (hmatch.symm.trans hfull2) (by decide)
          · exact ih
              { d with bits := d.bits.set d.bitptr b,
                       bitptr := if d.bitptr + 1 ≥ d.frame_size then 0
                                 else d.bitptr + 1 }
              c2 po vo e cnt (by simpa using hns)
              (by simpa using (by omega :
                (r2 :: rs).length ≤ d.frame_size))
              (by simp) (by rw [← writeBits_cons]; exact hfull)

/-- A `fvhff_deframe_bits` call on a freshly created deframer reduces to
the per-bit loop from the explicit fresh state. -/
theorem deframe_bits_fresh (c2 : List Nat) (po vo : Option (List Nat))
    (bin : List Nat) (hbin : bin.length = 96) :
    fvhff_deframe_bits
        ((fvhff_create_deframer FREEDV_VHF_FRAME_A).getD fallbackDeframer)
        c2 po vo bin =
      (let r := deframeLoop
        { bits := List.replicate 96 0, ftype := FREEDV_VHF_FRAME_A,
          state := ST_NOSYNC, bitptr := 0, last_uw := 0, miss_cnt := 0,
          frame_size := 96 } c2 po vo 0 0 bin
       (r.1, r.2.1, r.2.2.1, r.2.2.2.1, r.2.2.2.2.1)) := by
  have hfd : (fvhff_create_deframer FREEDV_VHF_FRAME_A).getD
      fallbackDeframer =
      { bits := List.replicate 96 0, ftype := FREEDV_VHF_FRAME_A,
        state := ST_NOSYNC, bitptr := 0, last_uw := 0, miss_cnt := 0,
        frame_size := 96 } := rfl
  rw [hfd, deframe_bits_eq_loop _ _ _ _ _ rfl]
  have h96 : ({ bits := List.replicate 96 0,
                ftype := FREEDV_VHF_FRAME_A, state := ST_NOSYNC,
                bitptr := 0, last_uw := 0, miss_cnt := 0,
                frame_size := 96 } : Deframer).frame_size = 96 := rfl
  rw [h96, range_map_getD 96 bin hbin]

/-- **C4**: first-acquisition tolerance boundary.  For every 96-bit frame
`F` carrying the unique word at offset 40 and any 2 resp. 3 distinct
positions inside the UW field 40..55: (a) feeding `F` with those 2 bits
flipped once through a fresh deframer ends synchronized with the
extracted flag set; (b) with 3 bits flipped, the aligned unique-word
check fails, and if no spurious misaligned match occurs along the way
(`noEarlyMatch`), the call leaves the deframer unsynchronized with no
extraction. -/
theorem c4_first_acquisition_boundary (F : List Nat) (a b c : Nat)
    (c2 : List Nat) (po vo : Option (List Nat)) (hlen : F.length = 96)
    (hUW : ∀ k, k < 16 → F.getD (40 + k) 0 = A_uw.getD k 0)
    (ha : 40 ≤ a) (hab : a < b) (hbc : b < c) (hc : c ≤ 55) :
    ((fvhff_deframe_bits
        ((fvhff_create_deframer FREEDV_VHF_FRAME_A).getD fallbackDeframer)
        c2 po vo (flipBits F [a, b])).1.state = ST_SYNC ∧
      (fvhff_deframe_bits
        ((fvhff_create_deframer FREEDV_VHF_FRAME_A).getD fallbackDeframer)
        c2 po vo (flipBits F [a, b])).2.2.2.2 = 1) ∧
    fvhff_match_uw
      { bits := flipBits F [a, b, c], ftype := FREEDV_VHF_FRAME_A,
        state := ST_NOSYNC, bitptr := 0, last_uw := 0, miss_cnt := 0,
        frame_size := 96 } uw_first_tol = false ∧
    (noEarlyMatch (flipBits F [a, b, c]) →
      (fvhff_deframe_bits
        ((fvhff_create_deframer FREEDV_VHF_FRAME_A).getD fallbackDeframer)
        c2 po vo (flipBits F [a, b, c])).1.state = ST_NOSYNC ∧
      (fvhff_deframe_bits
        ((fvhff_create_deframer FREEDV_VHF_FRAME_A).getD fallbackDeframer)
        c2 po vo (flipBits F [a, b, c])).2.2.2.2 = 0) := by
  have hF2len : (flipBits F [a, b]).length = 96 := by
    rw [flipBits_length]
    exact hlen
  have hF3len : (flipBits F [a, b, c]).length = 96 := by
    rw [flipBits_length]
    exact hlen
  have hmB := match_aligned_triple F a b c hlen hUW ha hab hbc hc
  refine ⟨?_, hmB, ?_⟩
  · -- 2 flips: sync with extraction
    have hwf := writeBits_full_fresh (flipBits F [a, b]) hF2len
    have hfull : fvhff_match_uw
        { bits := (writeBits 96 (List.replicate 96 0) 0
            (flipBits F [a, b])).1,
          ftype := FREEDV_VHF_FRAME_A, state := ST_NOSYNC,
          bitptr := (writeBits 96 (List.replicate 96 0) 0
            (flipBits F [a, b])).2,
          last_uw := 0, miss_cnt := 0, frame_size := 96 }
        uw_first_tol = true := by
      rw [hwf]
      exact match_aligned_pair F a b hlen hUW ha hab (by omega)
    have hloop := deframeLoop_nosync_full_match (flipBits F [a, b])
      { bits := List.replicate 96 0, ftype := FREEDV_VHF_FRAME_A,
        state := ST_NOSYNC, bitptr := 0, last_uw := 0, miss_cnt := 0,
        frame_size := 96 } c2 po vo 0 0 (by decide)
      (by rw [hF2len])
      (by intro hnil; rw [hnil] at hF2len; simp at hF2len) hfull
    rw [deframe_bits_fresh c2 po vo (flipBits F [a, b]) hF2len]
    exact hloop
  · -- 3 flips: no sync, no extraction, absent spurious matches
    intro hne
    rw [deframe_bits_fresh c2 po vo (flipBits F [a, b, c]) hF3len]
    have hdich := deframeLoop_nosync (flipBits F [a, b, c])
      { bits := List.replicate 96 0, ftype := FREEDV_VHF_FRAME_A,
        state := ST_NOSYNC, bitptr := 0, last_uw := 0, miss_cnt := 0,
        frame_size := 96 } c2 po vo 0 0 (by decide) (by rw [hF3len])
    rcases hdich with hleft | hright
    · rw [hleft]
      exact ⟨rfl, rfl⟩
    · exfalso
      obtain ⟨k, hk, hkm⟩ := hright.2.2.2.2.2
      rw [hF3len] at hk
      rcases Nat.lt_or_ge k 95 with hk95 | hk95
      · have hkm1 : fvhff_match_uw
            { bits := (writeBits 96 (List.replicate 96 0) 0
                ((flipBits F [a, b, c]).take (k + 1))).1,
              ftype := FREEDV_VHF_FRAME_A, state := ST_NOSYNC,
              bitptr := (writeBits 96 (List.replicate 96 0) 0
                ((flipBits F [a, b, c]).take (k + 1))).2,
              last_uw := 0, miss_cnt := 0, frame_size := 96 }
            uw_first_tol = true := hkm
        rw [writeBits_prefix_fresh _ k hF3len hk95] at hkm1
        have hkm2 : fvhff_match_uw
            { bits := (flipBits F [a, b, c]).take (k + 1) ++
                List.replicate (95 - k) 0,
              ftype := FREEDV_VHF_FRAME_A, state := ST_NOSYNC,
              bitptr := k + 1, last_uw := 0, miss_cnt := 0,
              frame_size := 96 } uw_first_tol = true := hkm1
        exact absurd (hkm2.symm.trans (hne k hk95)) (by decide)
      · have hk95' : k = 95 := by omega
        subst hk95'
        have htake : (flipBits F [a, b, c]).take (95 + 1) =
            flipBits F [a, b, c] := by
          have h96 : (95 : Nat) + 1 = 96 := rfl
          rw [h96, ← hF3len, List.take_length]
        have hkm1 : fvhff_match_uw
            { bits := (writeBits 96 (List.replicate 96 0) 0
                ((flipBits F [a, b, c]).take (95 + 1))).1,
              ftype := FREEDV_VHF_FRAME_A, state := ST_NOSYNC,
              bitptr := (writeBits 96 (List.replicate 96 0) 0
                ((flipBits F [a, b, c]).take (95 + 1))).2,
              last_uw := 0, miss_cnt := 0, frame_size := 96 }
            uw_first_tol = true := hkm
        rw [htake, writeBits_full_fresh _ hF3len] at hkm1
        have hkm2 : fvhff_match_uw
            { bits := flipBits F [a, b, c], ftype := FREEDV_VHF_FRAME_A,
              state := ST_NOSYNC, bitptr := 0, last_uw := 0,
              miss_cnt := 0, frame_size := 96 } uw_first_tol = true := hkm1
        exact absurd (hkm2.symm.trans hmB) (by decide)

/-- Witness for C4: the blank frame `A_blank` (which carries the UW) with
bits 40,41 resp. 40,41,42 flipped. -/
theorem c4_first_acquisition_boundary_witness :
    ((fvhff_deframe_bits
        ((fvhff_create_deframer FREEDV_VHF_FRAME_A).getD fallbackDeframer)
        (List.replicate 7 0) none none
        (flipBits A_blank [40, 41])).1.state = ST_SYNC ∧
      (fvhff_deframe_bits
        ((fvhff_create_deframer FREEDV_VHF_FRAME_A).getD fallbackDeframer)
        (List.replicate 7 0) none none
        (flipBits A_blank [40, 41])).2.2.2.2 = 1) ∧
    fvhff_match_uw
      { bits := flipBits A_blank [40, 41, 42],
        ftype := FREEDV_VHF_FRAME_A, state := ST_NOSYNC, bitptr := 0,
        last_uw := 0, miss_cnt := 0, frame_size := 96 }
      uw_first_tol = false ∧
    (noEarlyMatch (flipBits A_blank [40, 41, 42]) →
      (fvhff_deframe_bits
        ((fvhff_create_deframer FREEDV_VHF_FRAME_A).getD fallbackDeframer)
        (List.replicate 7 0) none none
        (flipBits A_blank [40, 41, 42])).1.state = ST_NOSYNC ∧
      (fvhff_deframe_bits
        ((fvhff_create_deframer FREEDV_VHF_FRAME_A).getD fallbackDeframer)
        (List.replicate 7 0) none none
        (flipBits A_blank [40, 41, 42])).2.2.2.2 = 0) :=
  c4_first_acquisition_boundary A_blank 40 41 42 (List.replicate 7 0)
    none none (by decide) (by decide) (by decide) (by decide) (by decide)
    (by decide)


/-! ## Round-trip infrastructure -/

theorem frame_bits_length (c2 p : List Nat) (vo : Option (List Nat)) :
    ((fvhff_frame_bits FREEDV_VHF_FRAME_A c2 (some p) vo).getD []).length
      = 96 := by
  rw [fvhff_frame_bits, if_pos rfl]
  rcases vo with _ | v <;> simp [fillRange_length] <;> decide

theorem frame_bits_uw (c2 p : List Nat) (vo : Option (List Nat)) :
    ∀ k, k < 16 →
      ((fvhff_frame_bits FREEDV_VHF_FRAME_A c2 (some p) vo).getD []).getD
        (40 + k) 0 = A_uw.getD k 0 := by
  have hblank : ∀ k, k < 16 → A_blank.getD (40 + k) 0 = A_uw.getD k 0 := by
    decide
  intro k hk
  rw [frame_bits_proto_getD c2 p vo (40 + k) (by omega)]
  rw [if_neg (by omega), if_neg (by omega), if_neg (by omega),
    if_neg (by omega)]
  exact hblank k hk

/-- A ring holding the unique word at the aligned offset passes the
aligned unique-word check (zero bit errors). -/
theorem match_aligned_uw (G : List Nat)
    (hUW : ∀ k, k < 16 → G.getD (40 + k) 0 = A_uw.getD k 0) :
    fvhff_match_uw
      { bits := G, ftype := FREEDV_VHF_FRAME_A, state := ST_NOSYNC,
        bitptr := 0, last_uw := 0, miss_cnt := 0, frame_size := 96 }
      uw_first_tol = true := by
  rw [match_uw_char _ _ rfl rfl (by show (0 : Nat) < 96 ; decide)]
  show decide ((∑ k ∈ Finset.range 16,
    if G.getD ((0 + 40 + k) % 96) 0 ≠ A_uw.getD k 0 then 1 else 0) ≤
      uw_first_tol) = true
  have hz : (∑ k ∈ Finset.range 16,
      if G.getD ((0 + 40 + k) % 96) 0 ≠ A_uw.getD k 0 then 1 else 0) = 0 := by
    apply Finset.sum_eq_zero
    intro k hk
    have hk16 : k < 16 := Finset.mem_range.mp hk
    have hmod : (0 + 40 + k) % 96 = 40 + k := by omega
    rw [hmod, hUW k hk16, if_neg (by omega)]
  rw [hz]
  decide

/-- Bit 0 of the MSB-first unpacked bit `8j + (7-i)` is bit `i` of source
byte `j`. -/
theorem testBit_unpack (bytes : List Nat) (j i : Nat) (hi : i < 8) :
    Nat.testBit (UNPACK_BIT_MSBFIRST bytes (8 * j + (7 - i))) 0 =
      Nat.testBit (bytes.getD j 0) i := by
  rw [UNPACK_BIT_MSBFIRST]
  have h8 : (2 : Nat) ^ 3 = 8 := rfl
  have hdiv : (8 * j + (7 - i)) >>> 3 = j := by
    rw [Nat.shiftRight_eq_div_pow, h8]
    omega
  have hand : (8 * j + (7 - i)) &&& 7 = 7 - i := by
    have h7 := Nat.and_pow_two_sub_one_eq_mod (8 * j + (7 - i)) 3
    norm_num at h7
    rw [h7]
    omega
  rw [hdiv, hand]
  have hsub : 7 - (7 - i) = i := by omega
  rw [hsub, Nat.testBit_and, Nat.testBit_shiftRight]
  simp

/-- A multiple of 16 has zero low nibble. -/
theorem testBit_lo_of_mod16 (x i : Nat) (hx : x % 16 = 0) (hi : i < 4) :
    Nat.testBit x i = false := by
  have h := Nat.testBit_mod_two_pow x 4 i
  have h16 : x % 2 ^ 4 = 0 := hx
  rw [h16, Nat.zero_testBit, decide_eq_true hi] at h
  simpa using h.symm

theorem set_pair_eq (l : List Nat) (h : l.length = 2) (x y : Nat) :
    (l.set 0 x).set 1 y = [x, y] := by
  obtain ⟨u, w, huw⟩ := List.length_eq_two.mp h
  subst huw
  rfl

theorem prod6_eta {A B C D E F : Type}
    (T : A × B × C × D × E × F) :
    (T.1, T.2.1, T.2.2.1, T.2.2.2.1, T.2.2.2.2.1, T.2.2.2.2.2) = T := rfl

/-- Feeding a 96-bit frame whose aligned unique-word check succeeds, and
which admits no earlier spurious match, through a fresh deframer: the
first 95 per-bit checks all fail, the 96th succeeds with the ring equal
to the frame and the cursor back at 0, and that state is extracted. -/
theorem deframeLoop_fresh_aligned (G : List Nat) (co : List Nat)
    (PO VO : Option (List Nat)) (hlen : G.length = 96)
    (hnem : noEarlyMatch G)
    (hmatch : fvhff_match_uw
      { bits := G, ftype := FREEDV_VHF_FRAME_A, state := ST_NOSYNC,
        bitptr := 0, last_uw := 0, miss_cnt := 0, frame_size := 96 }
      uw_first_tol = true) :
    deframeLoop
      { bits := List.replicate 96 0, ftype := FREEDV_VHF_FRAME_A,
        state := ST_NOSYNC, bitptr := 0, last_uw := 0, miss_cnt := 0,
        frame_size := 96 } co PO VO 0 0 G =
      (let d2 : Deframer :=
        { bits := G, ftype := FREEDV_VHF_FRAME_A, state := ST_SYNC,
          bitptr := 0, last_uw := 0, miss_cnt := 0, frame_size := 96 }
       let r := fvhff_extract_frame d2 co PO VO
       (d2, r.1, r.2.1, r.2.2, 1, 1)) := by
  have h95 : 95 < G.length := by omega
  have hdropG : G.drop 95 = [G.getD 95 0] := by
    rw [List.drop_eq_getElem_cons h95, List.drop_eq_nil_of_le (by omega)]
    rw [List.getD_eq_getElem _ _ h95]
  have hsplit : G.take 95 ++ [G.getD 95 0] = G := by
    rw [← hdropG, List.take_append_drop]
  have htl95 : (G.take 95).length = 95 := by
    rw [List.length_take]
    omega
  have hw95 := writeBits_prefix_fresh G 94 hlen (by omega)
  norm_num at hw95
  have hdich := deframeLoop_nosync (G.take 95)
    { bits := List.replicate 96 0, ftype := FREEDV_VHF_FRAME_A,
      state := ST_NOSYNC, bitptr := 0, last_uw := 0, miss_cnt := 0,
      frame_size := 96 } co PO VO 0 0 (by decide) (by rw [htl95] ; decide)
  have hfirst : deframeLoop
      { bits := List.replicate 96 0, ftype := FREEDV_VHF_FRAME_A,
        state := ST_NOSYNC, bitptr := 0, last_uw := 0, miss_cnt := 0,
        frame_size := 96 } co PO VO 0 0 (G.take 95) =
      ({ bits := G.take 95 ++ [0],
         ftype := FREEDV_VHF_FRAME_A, state := ST_NOSYNC, bitptr := 95,
         last_uw := 0, miss_cnt := 0, frame_size := 96 },
       co, PO, VO, 0, 0) := by
    rcases hdich with hleft | hright
    · rw [hleft]
      show (({ bits := (writeBits 96 (List.replicate 96 0) 0 (G.take 95)).1,
               ftype := FREEDV_VHF_FRAME_A, state := ST_NOSYNC,
               bitptr := (writeBits 96 (List.replicate 96 0) 0
                 (G.take 95)).2,
               last_uw := 0, miss_cnt := 0,
               frame_size := 96 } : Deframer),
            co, PO, VO, (0 : Nat), (0 : Nat)) = _
      rw [hw95]
    · exfalso
      obtain ⟨k, hk, hkm⟩ := hright.2.2.2.2.2
      rw [htl95] at hk
      have htt : (G.take 95).take (k + 1) = G.take (k + 1) := by
        rw [List.take_take]
        have hmin : min (k + 1) 95 = k + 1 := by omega
        rw [hmin]
      have hkm1 : fvhff_match_uw
          { bits := (writeBits 96 (List.replicate 96 0) 0
              ((G.take 95).take (k + 1))).1,
            ftype := FREEDV_VHF_FRAME_A, state := ST_NOSYNC,
            bitptr := (writeBits 96 (List.replicate 96 0) 0
              ((G.take 95).take (k + 1))).2,
            last_uw := 0, miss_cnt := 0, frame_size := 96 }
          uw_first_tol = true := hkm
      rw [htt, writeBits_prefix_fresh G k hlen hk] at hkm1
      have hkm2 : fvhff_match_uw
          { bits := G.take (k + 1) ++ List.replicate (95 - k) 0,
            ftype := FREEDV_VHF_FRAME_A, state := ST_NOSYNC,
            bitptr := k + 1, last_uw := 0, miss_cnt := 0,
            frame_size := 96 } uw_first_tol = true := hkm1
      exact absurd (hkm2.symm.trans (hnem k hk)) (by decide)
  have hsetG : (G.take 95 ++ [0]).set 95 (G.getD 95 0) =
      G := by
    apply getD_ext
    · simp [htl95, hlen]
    · intro j hj
      have hj' : j < 96 := by
        simp [htl95] at hj
        omega
      rw [getD_set_of_lt _ 95 j _ (by simp [htl95] ; omega)]
      by_cases hj95 : 95 = j
      · rw [if_pos hj95, ← hj95]
      · rw [if_neg hj95,
          List.getD_append _ _ _ _ (by rw [htl95] ; omega)]
        rw [List.getD_eq_getElem?_getD, List.getD_eq_getElem?_getD,
          List.getElem?_take_of_lt (by omega)]
  have hm1 : fvhff_match_uw
      { bits := (G.take 95 ++ [0]).set 95 (G.getD 95 0),
        ftype := FREEDV_VHF_FRAME_A, state := ST_NOSYNC,
        bitptr := if 95 + 1 ≥ 96 then 0 else 95 + 1, last_uw := 0,
        miss_cnt := 0, frame_size := 96 } uw_first_tol = true := by
    rw [hsetG]
    exact hmatch
  conv_lhs => rw [← hsplit]
  rw [deframeLoop_append, hfirst]
  show deframeLoop
      { bits := G.take 95 ++ [0],
        ftype := FREEDV_VHF_FRAME_A, state := ST_NOSYNC, bitptr := 95,
        last_uw := 0, miss_cnt := 0, frame_size := 96 }
      co PO VO 0 0 [G.getD 95 0] = _
  rw [deframeLoop]
  rw [deframeStep_nosync_match
    { bits := G.take 95 ++ [0],
      ftype := FREEDV_VHF_FRAME_A, state := ST_NOSYNC, bitptr := 95,
      last_uw := 0, miss_cnt := 0, frame_size := 96 }
    co PO VO 0 0 (G.getD 95 0)
    (by show ¬ ST_NOSYNC = ST_SYNC ; decide) hm1]
  rw [hsetG]
  simp only []
  rw [deframeLoop]
  try rw [if_pos (show (95 : Nat) + 1 ≥ 96 by omega)]
  try rw [show (0 : Nat) + 1 = 1 from rfl]


set_option maxRecDepth 100000 in
set_option maxHeartbeats 1000000 in
/-- **C1** (counterexample): the round trip is NOT exact for every input.
For this payload/protocol/side-channel combination the deframer locks
onto a spurious, misaligned unique-word image before the frame is fully
shifted in: the call reports an extraction and leaves the deframer
synchronized, but the extracted payload differs from the assembled
payload. -/
theorem c1_counterexample :
    (fvhff_deframe_bits
        ((fvhff_create_deframer FREEDV_VHF_FRAME_A).getD fallbackDeframer)
        (List.replicate 7 0) (some (List.replicate 3 0))
        (some (List.replicate 2 0))
        ((fvhff_frame_bits FREEDV_VHF_FRAME_A
          [255, 255, 255, 255, 255, 255, 240] (some [122, 208, 0])
          (some [0, 0])).getD [])).2.2.2.2 = 1 ∧
    (fvhff_deframe_bits
        ((fvhff_create_deframer FREEDV_VHF_FRAME_A).getD fallbackDeframer)
        (List.replicate 7 0) (some (List.replicate 3 0))
        (some (List.replicate 2 0))
        ((fvhff_frame_bits FREEDV_VHF_FRAME_A
          [255, 255, 255, 255, 255, 255, 240] (some [122, 208, 0])
          (some [0, 0])).getD [])).1.state = ST_SYNC ∧
    ¬ (fvhff_deframe_bits
        ((fvhff_create_deframer FREEDV_VHF_FRAME_A).getD fallbackDeframer)
        (List.replicate 7 0) (some (List.replicate 3 0))
        (some (List.replicate 2 0))
        ((fvhff_frame_bits FREEDV_VHF_FRAME_A
          [255, 255, 255, 255, 255, 255, 240] (some [122, 208, 0])
          (some [0, 0])).getD [])).2.1 =
      [255, 255, 255, 255, 255, 255, 240] := by
  decide

/-- Core of the amended C1, over an abstract 96-bit frame `G` carrying
the unique word, admitting no spurious early match, and whose bits agree
pointwise with the assembler's layout for payload `c2` and protocol
`proto`. -/
theorem roundtrip_core (G c2 proto co po vo : List Nat)
    (hGlen : G.length = 96)
    (hUW : ∀ k, k < 16 → G.getD (40 + k) 0 = A_uw.getD k 0)
    (hnem : noEarlyMatch G)
    (hFv : ∀ j, j < 96 → G.getD j 0 =
      if 56 ≤ j ∧ j < 56 + 28 then UNPACK_BIT_MSBFIRST c2 (24 + (j - 56))
      else if 16 ≤ j ∧ j < 16 + 24 then UNPACK_BIT_MSBFIRST c2 (j - 16)
      else if 84 ≤ j ∧ j < 84 + 8 then
        UNPACK_BIT_MSBFIRST proto (12 + (j - 84))
      else if 4 ≤ j ∧ j < 4 + 12 then UNPACK_BIT_MSBFIRST proto (j - 4)
      else A_blank.getD j 0)
    (hc2len : c2.length = 7) (hc2lt : ∀ j, j < 7 → c2.getD j 0 < 256)
    (hc2pad : c2.getD 6 0 % 16 = 0)
    (hplen : proto.length = 3) (hplt : ∀ j, j < 3 → proto.getD j 0 < 256)
    (hppad : proto.getD 2 0 % 16 = 0)
    (hco : co.length = 7) (hpo : po.length = 3) (hvo : vo.length = 2) :
    (fvhff_deframe_bits
        ((fvhff_create_deframer FREEDV_VHF_FRAME_A).getD fallbackDeframer)
        co (some po) (some vo) G).2.2.2.2 = 1 ∧
    (fvhff_deframe_bits
        ((fvhff_create_deframer FREEDV_VHF_FRAME_A).getD fallbackDeframer)
        co (some po) (some vo) G).1.state = ST_SYNC ∧
    (fvhff_deframe_bits
        ((fvhff_create_deframer FREEDV_VHF_FRAME_A).getD fallbackDeframer)
        co (some po) (some vo) G).2.1 = c2 ∧
    (fvhff_deframe_bits
        ((fvhff_create_deframer FREEDV_VHF_FRAME_A).getD fallbackDeframer)
        co (some po) (some vo) G).2.2.1 = some proto ∧
    (fvhff_deframe_bits
        ((fvhff_create_deframer FREEDV_VHF_FRAME_A).getD fallbackDeframer)
        co (some po) (some vo) G).2.2.2.1 =
      some [UNPACK_BIT_MSBFIRST proto 18, UNPACK_BIT_MSBFIRST proto 19] := by
  have hmatch := match_aligned_uw G hUW
  have hdropco : co.drop 7 = [] := List.drop_eq_nil_of_le (by omega)
  have hdroppo : po.drop 3 = [] := List.drop_eq_nil_of_le (by omega)
  have hE : fvhff_extract_frame
      { bits := G, ftype := FREEDV_VHF_FRAME_A, state := ST_SYNC,
        bitptr := 0, last_uw := 0, miss_cnt := 0, frame_size := 96 }
      co (some po) (some vo) =
      (packRange G 96 28 24 56
        (packRange G 96 24 0 16 (List.replicate 7 0 ++ co.drop 7)),
       some (packRange G 96 8 12 84
         (packRange G 96 12 0 4 (List.replicate 3 0 ++ po.drop 3))),
       some ((vo.set 0 (G.getD 90 0)).set 1 (G.getD 91 0))) := by
    rw [fvhff_extract_frame.eq_def]
    rw [if_pos rfl]
    rfl
  rw [deframe_bits_fresh co (some po) (some vo) _ hGlen,
    deframeLoop_fresh_aligned _ co (some po) (some vo) hGlen hnem hmatch]
  simp only []
  rw [hE, hdropco, hdroppo, List.append_nil, List.append_nil]
  simp only []
  refine ⟨trivial, trivial, ?_, ?_, ?_⟩
  · -- payload bytes
    apply getD_ext
    · rw [packRange_length, packRange_length]
      simp [hc2len]
    · intro j hj
      have hj7 : j < 7 := by
        rw [packRange_length, packRange_length] at hj
        simpa using hj
      apply Nat.eq_of_testBit_eq
      intro i
      rw [packRange_testBit G 96 28 24 56 _ j i (by omega)
        (by rw [packRange_length] ; simpa using hj7)]
      rw [packRange_testBit G 96 24 0 16 _ j i (by omega)
        (by simpa using hj7)]
      rw [getD_replicate_zero, Nat.zero_testBit]
      by_cases hi8 : i < 8
      · by_cases hg24 : 8 * j + (7 - i) < 24
        · rw [decide_eq_true hi8,
            decide_eq_true (by omega : 0 ≤ 8 * j + (7 - i)),
            decide_eq_true (by omega : 8 * j + (7 - i) < 0 + 24),
            decide_eq_false (by omega : ¬ 24 ≤ 8 * j + (7 - i))]
          have hidx : (16 + (8 * j + (7 - i) - 0)) % 96 =
              16 + (8 * j + (7 - i)) := by omega
          rw [hidx]
          rw [hFv (16 + (8 * j + (7 - i))) (by omega)]
          rw [if_neg (by omega), if_pos (by omega)]
          have harg : 16 + (8 * j + (7 - i)) - 16 = 8 * j + (7 - i) := by
            omega
          rw [harg, testBit_unpack c2 j i hi8]
          simp
        · by_cases hg52 : 8 * j + (7 - i) < 52
          · rw [decide_eq_true hi8,
              decide_eq_true (by omega : 24 ≤ 8 * j + (7 - i)),
              decide_eq_true (by omega : 8 * j + (7 - i) < 24 + 28),
              decide_eq_false (by omega : ¬ 8 * j + (7 - i) < 0 + 24)]
            have hidx : (56 + (8 * j + (7 - i) - 24)) % 96 =
                56 + (8 * j + (7 - i) - 24) := by omega
            rw [hidx]
            rw [hFv (56 + (8 * j + (7 - i) - 24)) (by omega)]
            rw [if_pos (by omega)]
            have harg : 24 + (56 + (8 * j + (7 - i) - 24) - 56) =
                8 * j + (7 - i) := by omega
            rw [harg, testBit_unpack c2 j i hi8]
            simp
          · rw [decide_eq_false (by omega : ¬ 8 * j + (7 - i) < 0 + 24),
              decide_eq_false (by omega : ¬ 8 * j + (7 - i) < 24 + 28)]
            have hj6 : j = 6 := by omega
            rw [hj6, testBit_lo_of_mod16 (c2.getD 6 0) i hc2pad (by omega)]
            simp
      · rw [decide_eq_false hi8]
        have hpow : (256 : Nat) ≤ 2 ^ i := by
          have h8 : (2 : Nat) ^ 8 ≤ 2 ^ i :=
            Nat.pow_le_pow_right (by omega) (by omega)
          exact h8
        rw [Nat.testBit_lt_two_pow
          (lt_of_lt_of_le (hc2lt j hj7) hpow)]
        simp
  · -- protocol bytes
    rw [Option.some_inj]
    apply getD_ext
    · rw [packRange_length, packRange_length]
      simp [hplen]
    · intro j hj
      have hj3 : j < 3 := by
        rw [packRange_length, packRange_length] at hj
        simpa using hj
      apply Nat.eq_of_testBit_eq
      intro i
      rw [packRange_testBit G 96 8 12 84 _ j i (by omega)
        (by rw [packRange_length] ; simpa using hj3)]
      rw [packRange_testBit G 96 12 0 4 _ j i (by omega)
        (by simpa using hj3)]
      rw [getD_replicate_zero, Nat.zero_testBit]
      by_cases hi8 : i < 8
      · by_cases hg12 : 8 * j + (7 - i) < 12
        · rw [decide_eq_true hi8,
            decide_eq_true (by omega : 0 ≤ 8 * j + (7 - i)),
            decide_eq_true (by omega : 8 * j + (7 - i) < 0 + 12),
            decide_eq_false (by omega : ¬ 12 ≤ 8 * j + (7 - i))]
          have hidx : (4 + (8 * j + (7 - i) - 0)) % 96 =
              4 + (8 * j + (7 - i)) := by omega
          rw [hidx]
          rw [hFv (4 + (8 * j + (7 - i))) (by omega)]
          rw [if_neg (by omega), if_neg (by omega), if_neg (by omega),
            if_pos (by omega)]
          have harg : 4 + (8 * j + (7 - i)) - 4 = 8 * j + (7 - i) := by
            omega
          rw [harg, testBit_unpack proto j i hi8]
          simp
        · by_cases hg20 : 8 * j + (7 - i) < 20
          · rw [decide_eq_true hi8,
              decide_eq_true (by omega : 12 ≤ 8 * j + (7 - i)),
              decide_eq_true (by omega : 8 * j + (7 - i) < 12 + 8),
              decide_eq_false (by omega : ¬ 8 * j + (7 - i) < 0 + 12)]
            have hidx : (84 + (8 * j + (7 - i) - 12)) % 96 =
                84 + (8 * j + (7 - i) - 12) := by omega
            rw [hidx]
            rw [hFv (84 + (8 * j + (7 - i) - 12)) (by omega)]
            rw [if_neg (by omega), if_neg (by omega), if_pos (by omega)]
            have harg : 12 + (84 + (8 * j + (7 - i) - 12) - 84) =
                8 * j + (7 - i) := by omega
            rw [harg, testBit_unpack proto j i hi8]
            simp
          · rw [decide_eq_false (by omega : ¬ 8 * j + (7 - i) < 0 + 12),
              decide_eq_false (by omega : ¬ 8 * j + (7 - i) < 12 + 8)]
            have hj2 : j = 2 := by omega
            rw [hj2,
              testBit_lo_of_mod16 (proto.getD 2 0) i hppad (by omega)]
            simp
      · rw [decide_eq_false hi8]
        have hpow : (256 : Nat) ≤ 2 ^ i := by
          have h8 : (2 : Nat) ^ 8 ≤ 2 ^ i :=
            Nat.pow_le_pow_right (by omega) (by omega)
          exact h8
        rw [Nat.testBit_lt_two_pow
          (lt_of_lt_of_le (hplt j hj3) hpow)]
        simp
  · -- side-channel bits are the overlapping protocol bits
    have h90 : G.getD 90 0 = UNPACK_BIT_MSBFIRST proto 18 := by
      rw [hFv 90 (by omega)]
      norm_num
    have h91 : G.getD 91 0 = UNPACK_BIT_MSBFIRST proto 19 := by
      rw [hFv 91 (by omega)]
      norm_num
    rw [set_pair_eq vo hvo, h90, h91]

/-- **C1** (amended): exact round trip under a no-spurious-match side
condition.  For every 52-bit payload (7 bytes, low nibble of byte 6
zero), 20-bit protocol field (3 bytes, low nibble of byte 2 zero) and
side-channel pair, if the assembled frame admits no spurious misaligned
unique-word match while being shifted into a fresh deframer
(`noEarlyMatch`), then one `fvhff_deframe_bits` call on the frame
reports an extraction, leaves the deframer synchronized, and recovers
the payload and protocol bytes exactly; the side-channel output returns
the overlapping protocol bits 18 and 19 (write precedence). -/
theorem c1_roundtrip (c2 proto vc co po vo : List Nat)
    (hc2len : c2.length = 7) (hc2lt : ∀ j, j < 7 → c2.getD j 0 < 256)
    (hc2pad : c2.getD 6 0 % 16 = 0)
    (hplen : proto.length = 3) (hplt : ∀ j, j < 3 → proto.getD j 0 < 256)
    (hppad : proto.getD 2 0 % 16 = 0)
    (hco : co.length = 7) (hpo : po.length = 3) (hvo : vo.length = 2)
    (hnem : noEarlyMatch
      ((fvhff_frame_bits FREEDV_VHF_FRAME_A c2 (some proto)
        (some vc)).getD [])) :
    (fvhff_deframe_bits
        ((fvhff_create_deframer FREEDV_VHF_FRAME_A).getD fallbackDeframer)
        co (some po) (some vo)
        ((fvhff_frame_bits FREEDV_VHF_FRAME_A c2 (some proto)
          (some vc)).getD [])).2.2.2.2 = 1 ∧
    (fvhff_deframe_bits
        ((fvhff_create_deframer FREEDV_VHF_FRAME_A).getD fallbackDeframer)
        co (some po) (some vo)
        ((fvhff_frame_bits FREEDV_VHF_FRAME_A c2 (some proto)
          (some vc)).getD [])).1.state = ST_SYNC ∧
    (fvhff_deframe_bits
        ((fvhff_create_deframer FREEDV_VHF_FRAME_A).getD fallbackDeframer)
        co (some po) (some vo)
        ((fvhff_frame_bits FREEDV_VHF_FRAME_A c2 (some proto)
          (some vc)).getD [])).2.1 = c2 ∧
    (fvhff_deframe_bits
        ((fvhff_create_deframer FREEDV_VHF_FRAME_A).getD fallbackDeframer)
        co (some po) (some vo)
        ((fvhff_frame_bits FREEDV_VHF_FRAME_A c2 (some proto)
          (some vc)).getD [])).2.2.1 = some proto ∧
    (fvhff_deframe_bits
        ((fvhff_create_deframer FREEDV_VHF_FRAME_A).getD fallbackDeframer)
        co (some po) (some vo)
        ((fvhff_frame_bits FREEDV_VHF_FRAME_A c2 (some proto)
          (some vc)).getD [])).2.2.2.1 =
      some [UNPACK_BIT_MSBFIRST proto 18, UNPACK_BIT_MSBFIRST proto 19] :=
  roundtrip_core
    ((fvhff_frame_bits FREEDV_VHF_FRAME_A c2 (some proto)
      (some vc)).getD []) c2 proto co po vo
    (frame_bits_length c2 proto (some vc))
    (frame_bits_uw c2 proto (some vc)) hnem
    (fun j hj => frame_bits_proto_getD c2 proto (some vc) j hj)
    hc2len hc2lt hc2pad hplen hplt hppad hco hpo hvo

set_option maxRecDepth 100000 in
set_option maxHeartbeats 1000000 in
/-- Witness for the amended C1 at all-zero payload, protocol and
side-channel inputs. -/
theorem c1_roundtrip_witness :
    (fvhff_deframe_bits
        ((fvhff_create_deframer FREEDV_VHF_FRAME_A).getD fallbackDeframer)
        (List.replicate 7 0) (some (List.replicate 3 0))
        (some (List.replicate 2 0))
        ((fvhff_frame_bits FREEDV_VHF_FRAME_A (List.replicate 7 0)
          (some (List.replicate 3 0))
          (some (List.replicate 2 0))).getD [])).2.2.2.2 = 1 ∧
    (fvhff_deframe_bits
        ((fvhff_create_deframer FREEDV_VHF_FRAME_A).getD fallbackDeframer)
        (List.replicate 7 0) (some (List.replicate 3 0))
        (some (List.replicate 2 0))
        ((fvhff_frame_bits FREEDV_VHF_FRAME_A (List.replicate 7 0)
          (some (List.replicate 3 0))
          (some (List.replicate 2 0))).getD [])).1.state = ST_SYNC ∧
    (fvhff_deframe_bits
        ((fvhff_create_deframer FREEDV_VHF_FRAME_A).getD fallbackDeframer)
        (List.replicate 7 0) (some (List.replicate 3 0))
        (some (List.replicate 2 0))
        ((fvhff_frame_bits FREEDV_VHF_FRAME_A (List.replicate 7 0)
          (some (List.replicate 3 0))
          (some (List.replicate 2 0))).getD [])).2.1 =
      List.replicate 7 0 ∧
    (fvhff_deframe_bits
        ((fvhff_create_deframer FREEDV_VHF_FRAME_A).getD fallbackDeframer)
        (List.replicate 7 0) (some (List.replicate 3 0))
        (some (List.replicate 2 0))
        ((fvhff_frame_bits FREEDV_VHF_FRAME_A (List.replicate 7 0)
          (some (List.replicate 3 0))
          (some (List.replicate 2 0))).getD [])).2.2.1 =
      some (List.replicate 3 0) ∧
    (fvhff_deframe_bits
        ((fvhff_create_deframer FREEDV_VHF_FRAME_A).getD fallbackDeframer)
        (List.replicate 7 0) (some (List.replicate 3 0))
        (some (List.replicate 2 0))
        ((fvhff_frame_bits FREEDV_VHF_FRAME_A (List.replicate 7 0)
          (some (List.replicate 3 0))
          (some (List.replicate 2 0))).getD [])).2.2.2.1 =
      some [UNPACK_BIT_MSBFIRST (List.replicate 3 0) 18,
            UNPACK_BIT_MSBFIRST (List.replicate 3 0) 19] :=
  c1_roundtrip (List.replicate 7 0) (List.replicate 3 0)
    (List.replicate 2 0) (List.replicate 7 0) (List.replicate 3 0)
    (List.replicate 2 0) (by decide) (by decide) (by decide) (by decide)
    (by decide) (by decide) (by decide) (by decide) (by decide) (by decide)


end FreeDVVHF
